import Mathlib

/-!
# The voice signal path of `src/audio/inc/Voice.h`

A shallow embedding of the oscillator, the delay line and the block renderer
of the synthesiser voice, and the properties of that code.

Conventions of the embedding.

* A `float` is modelled by a rational number and float arithmetic is exact:
  a literal such as `0.15f` is read at its decimal value, and infinities and
  NaN are not modelled. The named constant `float_Pi` has the value the
  float32 holds. The rounding of the float operations is modelled where it
  decides a property (the carrier phase sums of C4): the section on float
  rounding embeds the note-on and the carrier stage a second time with a
  rounding function after every float operation, `roundFloat32` for the
  float32 code; with the identity it is the exact embedding again.
* A C++ `int` is an `Int`; no index computed here comes near the overflow
  range, so no wraparound is modelled.
* `AudioSampleBuffer` is the JUCE class of that name and is not part of the
  repository. It is modelled from its documented contract as a sample table
  indexed by channel and sample position, together with its two sizes. The
  debug-only range assertions of JUCE are stated separately, as the
  predicate `AudioSampleBuffer.holds`, so that concrete inputs can be shown to
  stay inside their buffers.
* `std::sin`, `MidiMessage::getMidiNoteInHertz`, `Param::fromCent` and
  `Param::fromSemi` are not in the source tree; they are taken as parameters
  (`Externals`).
-/

namespace TheSource

/-! ## Scalars -/

/-- The JUCE constant `float_Pi`, declared as `3.14159265358979323846f`: the
value the `float` holds, the float32 nearest to the literal,
`13176795 * 2 ^ (-22)`. -/
def float_Pi : ℚ := 13176795 / 4194304

/-- Conversion of a floating value to `int` (`int(x)`): rounds toward zero. -/
def truncToInt (x : ℚ) : Int := if 0 ≤ x then ⌊x⌋ else ⌈x⌉

/-- The C library `std::fmod`: `x - n * y`, with `n` the quotient `x / y`
rounded toward zero. -/
def fmod (x y : ℚ) : ℚ := x - (truncToInt (x / y) : ℚ) * y

/-! ## Waveforms (`Voice.h` 13-17) -/

namespace Waveforms

/-- Source `sinus(phs) = std::sin(phs)`; the library sine is the parameter `stdSin`. -/
def sinus (stdSin : ℚ → ℚ) (phs : ℚ) : ℚ := stdSin phs

/-- Source `square(phs) = std::copysign(1.f, float_Pi - phs)`: `+1` when the
difference is not negative, `-1` otherwise. -/
def square (phs : ℚ) : ℚ := if 0 ≤ float_Pi - phs then 1 else -1

/-- Source `saw(phs) = phs / (float_Pi*2.f) - .5f`. -/
def saw (phs : ℚ) : ℚ := phs / (float_Pi * 2) - 0.5

end Waveforms

/-! ## Oscillator (`Voice.h` 20-47) -/

/-- The state of `Oscillator<_waveform>`; the waveform, a template argument
in the source, is an argument of `next` and `nextPitchMod`. -/
structure Oscillator where
  phase : ℚ
  phaseDelta : ℚ
deriving DecidableEq

namespace Oscillator

/-- The constructor `Oscillator()`. -/
def new : Oscillator := { phase := 0, phaseDelta := 0 }

/-- Source `reset()`. -/
def reset (_o : Oscillator) : Oscillator := { phase := 0, phaseDelta := 0 }

/-- Source `isActive()`. -/
def isActive (o : Oscillator) : Bool := decide (o.phaseDelta > 0)

/-- Source `next()`: the sample returned and the oscillator left behind. -/
def next (waveform : ℚ → ℚ) (o : Oscillator) : ℚ × Oscillator :=
  (waveform o.phase,
   { o with phase := fmod (o.phase + o.phaseDelta) (float_Pi * 2) })

/-- Source `next(float pitchMod)`. -/
def nextPitchMod (waveform : ℚ → ℚ) (o : Oscillator) (pitchMod : ℚ) : ℚ × Oscillator :=
  (waveform o.phase,
   { o with phase := fmod (o.phase + o.phaseDelta * pitchMod) (float_Pi * 2) })

/-- The samples returned by `n` successive `next()` calls, in order, and the
oscillator they leave. -/
def nextSamples (waveform : ℚ → ℚ) : Nat → Oscillator → List ℚ × Oscillator
  | 0, o => ([], o)
  | n + 1, o =>
    let r := o.next waveform
    let rest := nextSamples waveform n r.2
    (r.1 :: rest.1, rest.2)

/-- The samples returned by `n` successive `next(pitchMod)` calls, in order,
and the oscillator they leave. -/
def nextPitchModSamples (waveform : ℚ → ℚ) (pitchMod : ℚ) :
    Nat → Oscillator → List ℚ × Oscillator
  | 0, o => ([], o)
  | n + 1, o =>
    let r := o.nextPitchMod waveform pitchMod
    let rest := nextPitchModSamples waveform pitchMod n r.2
    (r.1 :: rest.1, rest.2)

end Oscillator

/-! ## The JUCE sample buffer -/

/-- A counted loop `for (int s = 0; s < n; ++s) body(s)` threading a state. -/
def forLoop {σ : Type} (n : Int) (body : Int → σ → σ) (init : σ) : σ :=
  (List.range n.toNat).foldl (fun st s => body (s : Int) st) init

/-- JUCE `AudioSampleBuffer`: `data c i` is the sample of channel `c` at
position `i`. -/
structure AudioSampleBuffer where
  numChannels : Int
  numSamples : Int
  data : Int → Int → ℚ

namespace AudioSampleBuffer

/-- The range assertion of the JUCE accessors: `(c, i)` is a sample of the
buffer. -/
def holds (b : AudioSampleBuffer) (c i : Int) : Prop :=
  0 ≤ c ∧ c < b.numChannels ∧ 0 ≤ i ∧ i < b.numSamples

instance (b : AudioSampleBuffer) (c i : Int) : Decidable (b.holds c i) := by
  unfold holds; infer_instance

/-- JUCE `AudioSampleBuffer (numChannels, numSamples)`. JUCE leaves the new
samples uninitialised; the model starts them at `0`. The voice clears its
delay buffer after allocating it and writes its pitch-modulation buffer
before reading it. -/
def zeros (numChannels numSamples : Int) : AudioSampleBuffer :=
  { numChannels := numChannels, numSamples := numSamples, data := fun _ _ => 0 }

/-- JUCE `getSample (channel, index)`. -/
def getSample (b : AudioSampleBuffer) (c i : Int) : ℚ := b.data c i

/-- JUCE `setSample (channel, index, value)`. -/
def setSample (b : AudioSampleBuffer) (c i : Int) (x : ℚ) : AudioSampleBuffer :=
  { b with data := fun c' i' => if c' = c ∧ i' = i then x else b.data c' i' }

/-- JUCE `addSample (channel, index, value)`: `data[channel][index] += value`. -/
def addSample (b : AudioSampleBuffer) (c i : Int) (x : ℚ) : AudioSampleBuffer :=
  { b with data := fun c' i' => if c' = c ∧ i' = i then b.data c' i' + x else b.data c' i' }

/-- JUCE `clear (channel, startSample, numSamples)`: zeroes the positions
`startSample ≤ i < startSample + numSamples` of one channel. -/
def clear (b : AudioSampleBuffer) (c startSample n : Int) : AudioSampleBuffer :=
  { b with data := fun c' i' =>
      if c' = c ∧ startSample ≤ i' ∧ i' < startSample + n then 0 else b.data c' i' }

/-- JUCE `applyGain (gain)`: multiplies every sample of every channel of the
buffer. -/
def applyGain (b : AudioSampleBuffer) (gain : ℚ) : AudioSampleBuffer :=
  { b with data := fun c' i' =>
      if 0 ≤ c' ∧ c' < b.numChannels ∧ 0 ≤ i' ∧ i' < b.numSamples
      then b.data c' i' * gain else b.data c' i' }

end AudioSampleBuffer

/-! ## Voice (`Voice.h` 49-227) -/

/-- The values of `SynthParams` that the voice reads (`params.x.get()`). -/
structure SynthParams where
  freq : ℚ
  lfo1freq : ℚ
  osc1fine : ℚ
  osc1lfo1depth : ℚ
  decayFac : ℚ
  vol : ℚ

/-- Functions the voice calls that live outside the source tree. -/
structure Externals where
  stdSin : ℚ → ℚ
  getMidiNoteInHertz : Int → ℚ → ℚ
  fromCent : ℚ → ℚ
  fromSemi : ℚ → ℚ

/-- The members of `Voice`, with the two members of the JUCE base class
`SynthesiserVoice` that the code reads or writes: `currentSampleRate`
(`getSampleRate()`) and `currentlyPlayingNote` (set to `-1` by
`clearCurrentNote()`). -/
structure Voice where
  params : SynthParams
  osc1 : Oscillator
  lfo1 : Oscillator
  level : ℚ
  tailOff : ℚ
  pitchModBuffer : AudioSampleBuffer
  delayBuffer : AudioSampleBuffer
  maxDelayLengthInSamples : Int
  delayFeedbackValue : ℚ
  delayDryWet : ℚ
  delayIteratorIndex : Int
  delayOffsetInSamples : Int
  currentSampleRate : ℚ
  currentlyPlayingNote : Int

namespace Voice

/-- The constructor `Voice (p, blockSize)`, lines 51-65. The base class
starts with a sample rate of `44100` and no note. -/
def new (p : SynthParams) (blockSize : Int) : Voice :=
  let sampleRate : ℚ := 44100
  let maxDelay : Int := truncToInt sampleRate * 2
  { params := p
    osc1 := Oscillator.new
    lfo1 := Oscillator.new
    level := 0
    tailOff := 0
    pitchModBuffer := AudioSampleBuffer.zeros 1 blockSize
    delayBuffer := ((AudioSampleBuffer.zeros 2 maxDelay).clear 0 0 maxDelay).clear 1 0 maxDelay
    maxDelayLengthInSamples := maxDelay
    delayFeedbackValue := 0.001
    delayDryWet := 1
    delayIteratorIndex := 0
    delayOffsetInSamples := (44100 : Int) / 20
    currentSampleRate := sampleRate
    currentlyPlayingNote := -1 }

/-- JUCE `clearCurrentNote()`: the voice no longer plays a note. -/
def clearCurrentNote (v : Voice) : Voice := { v with currentlyPlayingNote := -1 }

/-- JUCE `isVoiceActive()`: a note is playing. -/
def isVoiceActive (v : Voice) : Bool := decide (0 ≤ v.currentlyPlayingNote)

/-- Source `startNote`, lines 74-88. -/
def startNote (x : Externals) (v : Voice) (midiNoteNumber : Int) (velocity : ℚ) : Voice :=
  let sRate : ℚ := v.currentSampleRate
  let freqHz : ℚ := x.getMidiNoteInHertz midiNoteNumber v.params.freq
  { v with
    level := velocity * 0.15
    tailOff := 0
    lfo1 := { phase := 0, phaseDelta := v.params.lfo1freq / sRate * 2 * float_Pi }
    osc1 := { phase := 0,
              phaseDelta := freqHz * x.fromCent v.params.osc1fine / sRate * 2 * float_Pi } }

/-- Source `stopNote`, lines 90-108. -/
def stopNote (v : Voice) (_velocity : ℚ) (allowTailOff : Bool) : Voice :=
  if allowTailOff then
    if v.tailOff = 0 then { v with tailOff := 1 } else v
  else
    let v := v.clearCurrentNote
    let v := { v with lfo1 := v.lfo1.reset }
    { v with osc1 := v.osc1.reset }

/-- Source `getDelayIndex`, lines 203-209. -/
def getDelayIndex (v : Voice) (indexIn : Int) : Int :=
  if indexIn > v.maxDelayLengthInSamples then indexIn - v.maxDelayLengthInSamples
  else indexIn

/-- Source `renderModulation`, lines 177-185. -/
def renderModulation (x : Externals) (v : Voice) (numSamples : Int) : Voice :=
  let modAmount := v.params.osc1lfo1depth
  forLoop numSamples (fun s v =>
    let r := v.lfo1.next (Waveforms.sinus x.stdSin)
    { v with
      lfo1 := r.2
      pitchModBuffer := v.pitchModBuffer.setSample 0 s (x.fromSemi (r.1 * modAmount)) }) v

/-- Source `copyRenderedBlockToDelayBuffer`, lines 187-201. -/
def copyRenderedBlockToDelayBuffer (v : Voice) (bufferIn : AudioSampleBuffer) : Voice :=
  forLoop bufferIn.numSamples (fun s v =>
    forLoop bufferIn.numChannels (fun c v =>
      let d := v.delayBuffer.clear c 0 1
      let d := d.addSample c (v.getDelayIndex (0 + s + v.delayOffsetInSamples))
        (bufferIn.getSample c (0 + s))
      { v with delayBuffer := d }) v) v

/-- The release loop of `renderNextBlock`, lines 130-146, from sample `s`
with `remaining` iterations left; the `break` ends the recursion. -/
def releaseLoop (startSample : Int) (currentAmp : ℚ) (pitchMod : Int → ℚ) :
    Nat → Int → Voice → AudioSampleBuffer → Voice × AudioSampleBuffer
  | 0, _, v, outputBuffer => (v, outputBuffer)
  | remaining + 1, s, v, outputBuffer =>
    let r := v.osc1.nextPitchMod Waveforms.square (pitchMod s)
    let currentSample := r.1 * v.level * v.tailOff * currentAmp
    let outputBuffer := forLoop outputBuffer.numChannels
      (fun c o => o.addSample c (startSample + s) currentSample) outputBuffer
    let v := { v with osc1 := r.2, tailOff := v.tailOff * v.params.decayFac }
    if v.tailOff ≤ 0.005 then
      let v := v.clearCurrentNote
      ({ v with lfo1 := v.lfo1.reset }, outputBuffer)
    else releaseLoop startSample currentAmp pitchMod remaining (s + 1) v outputBuffer

/-- The sustain loop of `renderNextBlock`, lines 150-155. -/
def sustainLoop (startSample : Int) (currentAmp : ℚ) (pitchMod : Int → ℚ)
    (numSamples : Int) (v : Voice) (outputBuffer : AudioSampleBuffer) :
    Voice × AudioSampleBuffer :=
  forLoop numSamples (fun s st =>
    let r := st.1.osc1.nextPitchMod Waveforms.square (pitchMod s)
    let currentSample := r.1 * st.1.level * currentAmp
    ({ st.1 with osc1 := r.2 },
     forLoop st.2.numChannels (fun c o => o.addSample c (startSample + s) currentSample) st.2))
    (v, outputBuffer)

/-- The carrier stage of `renderNextBlock`, lines 122-157: the modulation
buffer is rendered, then the carrier is added while the LFO is active. -/
def renderCarrier (x : Externals) (v : Voice) (outputBuffer : AudioSampleBuffer)
    (startSample numSamples : Int) : Voice × AudioSampleBuffer :=
  let v := v.renderModulation x numSamples
  let pitchMod : Int → ℚ := fun s => v.pitchModBuffer.data 0 s
  let currentAmp := v.params.vol
  if v.lfo1.isActive then
    if v.tailOff > 0 then
      releaseLoop startSample currentAmp pitchMod numSamples.toNat 0 v outputBuffer
    else
      sustainLoop startSample currentAmp pitchMod numSamples v outputBuffer
  else (v, outputBuffer)

/-- The mixing loop of the delay stage, lines 163-172. -/
def mixDelay (v : Voice) (outputBuffer : AudioSampleBuffer) (startSample numSamples : Int) :
    AudioSampleBuffer :=
  forLoop numSamples (fun s o =>
    forLoop o.numChannels (fun c o =>
      let currentSample : ℚ :=
        o.getSample c (startSample + s) * 0.5 +
          v.delayBuffer.getSample c (startSample + s + v.delayOffsetInSamples) * 0.5 *
            v.delayFeedbackValue
      let o := o.clear c startSample 1
      o.addSample c (startSample + s) currentSample) o) outputBuffer

/-- Source `renderNextBlock`, lines 120-174: the voice and the output buffer after
the call. -/
def renderNextBlock (x : Externals) (v : Voice) (outputBuffer : AudioSampleBuffer)
    (startSample numSamples : Int) : Voice × AudioSampleBuffer :=
  let r := renderCarrier x v outputBuffer startSample numSamples
  let v := r.1.copyRenderedBlockToDelayBuffer r.2
  let outputBuffer := r.2.applyGain 0.5
  (v, mixDelay v outputBuffer startSample numSamples)

/-! ## Sequences of host calls -/

/-- Successive `renderNextBlock` calls on one output buffer; each pair is
the `(startSample, numSamples)` of one call. -/
def renderBlocks (x : Externals) :
    List (Int × Int) → Voice → AudioSampleBuffer → Voice × AudioSampleBuffer
  | [], v, outputBuffer => (v, outputBuffer)
  | (startSample, numSamples) :: rest, v, outputBuffer =>
    let r := v.renderNextBlock x outputBuffer startSample numSamples
    renderBlocks x rest r.1 r.2

/-- A call of the host on a voice, other than a note-on. -/
inductive Call where
  | render (outputBuffer : AudioSampleBuffer) (startSample numSamples : Int)
  | stop (velocity : ℚ) (allowTailOff : Bool)

/-- The voice after a sequence of host calls without a note-on. -/
def afterCalls (x : Externals) : Voice → List Call → Voice
  | v, [] => v
  | v, Call.render outputBuffer startSample numSamples :: rest =>
    afterCalls x (v.renderNextBlock x outputBuffer startSample numSamples).1 rest
  | v, Call.stop velocity allowTailOff :: rest =>
    afterCalls x (v.stopNote velocity allowTailOff) rest

end Voice

/-! ## Concrete inputs -/

/-- A parameter setting: tuning 440 Hz, LFO rate 1 Hz, no fine tune, LFO
depth 0, decay factor 0.5, output level 1. -/
def exampleParams : SynthParams :=
  { freq := 440, lfo1freq := 1, osc1fine := 0, osc1lfo1depth := 0, decayFac := 0.5, vol := 1 }

/-- Values of the external functions at the points the concrete inputs reach:
`sin 0 = 0`, note 69 sounds at the tuning frequency, zero cents and zero
semitones are the ratio 1. -/
def exampleExternals : Externals :=
  { stdSin := fun _ => 0, getMidiNoteInHertz := fun _ f => f,
    fromCent := fun _ => 1, fromSemi := fun _ => 1 }

/-- An output buffer of one channel and two samples, both `1`. -/
def onesBuffer : AudioSampleBuffer := { numChannels := 1, numSamples := 2, data := fun _ _ => 1 }

/-- A freshly constructed voice for blocks of up to 8 samples. -/
def freshVoice : Voice := Voice.new exampleParams 8

/-- The fresh voice and the block of ones after the carrier stage of
`renderNextBlock (onesBuffer, 0, 2)`. -/
def carriedOnes : Voice × AudioSampleBuffer :=
  freshVoice.renderCarrier exampleExternals onesBuffer 0 2

/-- The voice of `carriedOnes` after that block is fed into its delay line,
the next step of the same call. -/
def delayedOnes : Voice := carriedOnes.1.copyRenderedBlockToDelayBuffer carriedOnes.2

/-- The fresh voice after the block of ones is copied into its delay line. -/
def onceCopied : Voice := freshVoice.copyRenderedBlockToDelayBuffer onesBuffer

/-- The fresh voice after note 69 is started at velocity 1 and released with
tail-off allowed: `tailOff = 1`, both oscillators armed, decay factor 0.5. -/
def releasedVoice : Voice := (freshVoice.startNote exampleExternals 69 1).stopNote 0 true

/-! ## Float rounding

The definitions above compute in exact arithmetic. Where the rounding of the
`float` operations decides a property, the code is embedded a second time
with every float operation followed by a rounding function `rnd`:
`roundFloat32` gives the float32 code, the identity gives back the exact
definitions. -/

/-- Rounding to the nearest integer, a tie going to the even one. -/
def roundHalfEven (x : ℚ) : Int :=
  if x - ⌊x⌋ < 1 / 2 then ⌊x⌋
  else if 1 / 2 < x - ⌊x⌋ then ⌊x⌋ + 1
  else if ⌊x⌋ % 2 = 0 then ⌊x⌋ else ⌊x⌋ + 1

/-- The float32 nearest to `x` (IEEE 754 binary32, round to nearest, ties to
even): with `2 ^ e ≤ |x| < 2 ^ (e + 1)`, and `e` no less than `-126` (below it
the subnormals keep the spacing of `2 ^ (-126)`), `x` is rounded to a multiple
of the spacing `2 ^ (e - 23)` of the floats there. Overflow to infinity is
not modelled. -/
def roundFloat32 (x : ℚ) : ℚ :=
  if x = 0 then 0
  else
    (roundHalfEven (x / 2 ^ (max (Int.log 2 |x|) (-126) - 23)) : ℚ)
      * 2 ^ (max (Int.log 2 |x|) (-126) - 23)

namespace Oscillator

/-- Source `next()`, the float sum rounded by `rnd`; `std::fmod` and the
doubling of `float_Pi` are exact in float arithmetic. -/
def nextRounded (rnd : ℚ → ℚ) (waveform : ℚ → ℚ) (o : Oscillator) : ℚ × Oscillator :=
  (waveform o.phase,
   { o with phase := fmod (rnd (o.phase + o.phaseDelta)) (float_Pi * 2) })

/-- Source `next(float pitchMod)`, the float product and sum rounded by `rnd`. -/
def nextPitchModRounded (rnd : ℚ → ℚ) (waveform : ℚ → ℚ) (o : Oscillator) (pitchMod : ℚ) :
    ℚ × Oscillator :=
  (waveform o.phase,
   { o with phase := fmod (rnd (o.phase + rnd (o.phaseDelta * pitchMod))) (float_Pi * 2) })

/-- The samples returned by `n` successive `next()` calls computed with
rounding `rnd`, in order, and the oscillator they leave. -/
def nextSamplesRounded (rnd : ℚ → ℚ) (waveform : ℚ → ℚ) :
    Nat → Oscillator → List ℚ × Oscillator
  | 0, o => ([], o)
  | n + 1, o =>
    let r := o.nextRounded rnd waveform
    let rest := nextSamplesRounded rnd waveform n r.2
    (r.1 :: rest.1, rest.2)

end Oscillator

namespace AudioSampleBuffer

/-- JUCE `addSample (channel, index, value)`, the float sum rounded by `rnd`. -/
def addSampleRounded (rnd : ℚ → ℚ) (b : AudioSampleBuffer) (c i : Int) (x : ℚ) :
    AudioSampleBuffer :=
  { b with data := fun c' i' =>
      if c' = c ∧ i' = i then rnd (b.data c' i' + x) else b.data c' i' }

end AudioSampleBuffer

namespace Voice

/-- Source `startNote`, lines 74-88, every float operation rounded by `rnd`:
the product with the literal `0.15f`, the two conversions
`static_cast<float>` of a `double`, and the products and quotients of the two
phase increments, taken left to right. -/
def startNoteRounded (rnd : ℚ → ℚ) (x : Externals) (v : Voice) (midiNoteNumber : Int)
    (velocity : ℚ) : Voice :=
  let sRate : ℚ := rnd v.currentSampleRate
  let freqHz : ℚ := rnd (x.getMidiNoteInHertz midiNoteNumber v.params.freq)
  { v with
    level := rnd (velocity * rnd 0.15)
    tailOff := 0
    lfo1 := { phase := 0,
              phaseDelta := rnd (rnd (rnd (v.params.lfo1freq / sRate) * 2) * float_Pi) }
    osc1 := { phase := 0,
              phaseDelta :=
                rnd (rnd (rnd (rnd (freqHz * x.fromCent v.params.osc1fine) / sRate) * 2)
                  * float_Pi) } }

/-- Source `renderModulation`, lines 177-185, every float operation rounded by
`rnd`. -/
def renderModulationRounded (rnd : ℚ → ℚ) (x : Externals) (v : Voice) (numSamples : Int) :
    Voice :=
  let modAmount := v.params.osc1lfo1depth
  forLoop numSamples (fun s v =>
    let r := v.lfo1.nextRounded rnd (Waveforms.sinus x.stdSin)
    { v with
      lfo1 := r.2
      pitchModBuffer := v.pitchModBuffer.setSample 0 s (x.fromSemi (rnd (r.1 * modAmount))) }) v

/-- The release loop of `renderNextBlock`, lines 130-146, every float
operation rounded by `rnd`. -/
def releaseLoopRounded (rnd : ℚ → ℚ) (startSample : Int) (currentAmp : ℚ)
    (pitchMod : Int → ℚ) :
    Nat → Int → Voice → AudioSampleBuffer → Voice × AudioSampleBuffer
  | 0, _, v, outputBuffer => (v, outputBuffer)
  | remaining + 1, s, v, outputBuffer =>
    let r := v.osc1.nextPitchModRounded rnd Waveforms.square (pitchMod s)
    let currentSample := rnd (rnd (rnd (r.1 * v.level) * v.tailOff) * currentAmp)
    let outputBuffer := forLoop outputBuffer.numChannels
      (fun c o => o.addSampleRounded rnd c (startSample + s) currentSample) outputBuffer
    let v := { v with osc1 := r.2, tailOff := rnd (v.tailOff * v.params.decayFac) }
    if v.tailOff ≤ rnd 0.005 then
      let v := v.clearCurrentNote
      ({ v with lfo1 := v.lfo1.reset }, outputBuffer)
    else
      releaseLoopRounded rnd startSample currentAmp pitchMod remaining (s + 1) v outputBuffer

/-- The sustain loop of `renderNextBlock`, lines 150-155, every float
operation rounded by `rnd`. -/
def sustainLoopRounded (rnd : ℚ → ℚ) (startSample : Int) (currentAmp : ℚ)
    (pitchMod : Int → ℚ) (numSamples : Int) (v : Voice) (outputBuffer : AudioSampleBuffer) :
    Voice × AudioSampleBuffer :=
  forLoop numSamples (fun s st =>
    let r := st.1.osc1.nextPitchModRounded rnd Waveforms.square (pitchMod s)
    let currentSample := rnd (rnd (r.1 * st.1.level) * currentAmp)
    ({ st.1 with osc1 := r.2 },
     forLoop st.2.numChannels
       (fun c o => o.addSampleRounded rnd c (startSample + s) currentSample) st.2))
    (v, outputBuffer)

/-- The carrier stage of `renderNextBlock`, lines 122-157, every float
operation rounded by `rnd`. -/
def renderCarrierRounded (rnd : ℚ → ℚ) (x : Externals) (v : Voice)
    (outputBuffer : AudioSampleBuffer) (startSample numSamples : Int) :
    Voice × AudioSampleBuffer :=
  let v := v.renderModulationRounded rnd x numSamples
  let pitchMod : Int → ℚ := fun s => v.pitchModBuffer.data 0 s
  let currentAmp := v.params.vol
  if v.lfo1.isActive then
    if v.tailOff > 0 then
      releaseLoopRounded rnd startSample currentAmp pitchMod numSamples.toNat 0 v outputBuffer
    else
      sustainLoopRounded rnd startSample currentAmp pitchMod numSamples v outputBuffer
  else (v, outputBuffer)

end Voice

/-- The fresh voice with the tuning parameter at 7350 Hz, after the float32
note-on of note 69 at velocity 1: sustaining, LFO active, LFO depth 0, the
carrier at phase 0 with the float32 phase increment of 7350 Hz at 44100
samples per second. -/
def tunedVoice : Voice :=
  (Voice.new { exampleParams with freq := 7350 } 8).startNoteRounded roundFloat32
    exampleExternals 69 1

/-! ## Counted loops -/

theorem forLoop_toNat {σ : Type} (n : Int) (body : Int → σ → σ) (init : σ) :
    forLoop ((n.toNat : ℕ) : Int) body init = forLoop n body init := by
  unfold forLoop
  rw [Int.toNat_ofNat]

theorem forLoop_succ {σ : Type} (k : ℕ) (body : Int → σ → σ) (init : σ) :
    forLoop ((k + 1 : ℕ) : Int) body init =
      body (k : Int) (forLoop ((k : ℕ) : Int) body init) := by
  simp [forLoop, List.range_succ]

/-- Invariant rule for a counted loop. -/
theorem forLoop_invariant {σ : Type} (P : ℕ → σ → Prop) (n : Int) (body : Int → σ → σ)
    (init : σ) (h0 : P 0 init)
    (hs : ∀ k : ℕ, (k : Int) < n → ∀ st, P k st → P (k + 1) (body (k : Int) st)) :
    P n.toNat (forLoop n body init) := by
  rw [← forLoop_toNat]
  have key : ∀ m : ℕ, m ≤ n.toNat → P m (forLoop ((m : ℕ) : Int) body init) := by
    intro m
    induction m with
    | zero => intro _; simpa [forLoop] using h0
    | succ m ih =>
      intro hm
      rw [forLoop_succ]
      apply hs m _ _ (ih (by omega))
      omega
  exact key _ le_rfl

/-- Invariant rule for a counted loop, for a property that does not depend
on the iteration count. -/
theorem forLoop_preserves {σ : Type} (P : σ → Prop) (n : Int) (body : Int → σ → σ)
    (init : σ) (h0 : P init)
    (hs : ∀ k : ℕ, (k : Int) < n → ∀ st, P st → P (body (k : Int) st)) :
    P (forLoop n body init) :=
  forLoop_invariant (fun _ st => P st) n body init h0 hs

/-! ## Sample buffers -/

namespace AudioSampleBuffer

theorem ext_data {a b : AudioSampleBuffer} (hc : a.numChannels = b.numChannels)
    (hs : a.numSamples = b.numSamples) (hd : ∀ c i, a.data c i = b.data c i) : a = b := by
  cases a; cases b
  simp only at hc hs hd
  subst hc; subst hs
  congr
  funext c i
  exact hd c i

/-- Adding one value at position `i` of every channel. -/
theorem addSample_channels (b : AudioSampleBuffer) (nc i : Int) (x : ℚ) :
    (forLoop nc (fun c o => o.addSample c i x) b).numChannels = b.numChannels ∧
    (forLoop nc (fun c o => o.addSample c i x) b).numSamples = b.numSamples ∧
    ∀ c' i', (forLoop nc (fun c o => o.addSample c i x) b).data c' i' =
      if 0 ≤ c' ∧ c' < nc ∧ i' = i then b.data c' i' + x else b.data c' i' := by
  have h := forLoop_invariant
    (fun k o => o.numChannels = b.numChannels ∧ o.numSamples = b.numSamples ∧
      ∀ c' i', o.data c' i' =
        if 0 ≤ c' ∧ c' < (k : Int) ∧ i' = i then b.data c' i' + x else b.data c' i')
    nc (fun c o => o.addSample c i x) b ?_ ?_
  · refine ⟨h.1, h.2.1, fun c' i' => ?_⟩
    rw [h.2.2 c' i']
    by_cases hc : 0 ≤ c' ∧ c' < nc ∧ i' = i
    · rw [if_pos hc, if_pos]
      refine ⟨hc.1, ?_, hc.2.2⟩
      have := hc.2.1
      omega
    · rw [if_neg hc, if_neg]
      rintro ⟨h1, h2, h3⟩
      exact hc ⟨h1, by omega, h3⟩
  · refine ⟨rfl, rfl, fun c' i' => ?_⟩
    rw [if_neg]
    rintro ⟨h1, h2, _⟩
    simp at h2
    omega
  · rintro k hk st ⟨h1, h2, h3⟩
    refine ⟨h1, h2, fun c' i' => ?_⟩
    simp only [addSample, h3]
    by_cases hc : c' = (k : Int) ∧ i' = i
    · obtain ⟨rfl, rfl⟩ := hc
      simp
    · rw [if_neg hc]
      by_cases hc2 : 0 ≤ c' ∧ c' < (k : Int) ∧ i' = i
      · rw [if_pos hc2, if_pos]
        refine ⟨hc2.1, ?_, hc2.2.2⟩
        push_cast
        omega
      · rw [if_neg hc2, if_neg]
        rintro ⟨h4, h5, h6⟩
        push_cast at h5
        have : c' ≠ (k : Int) := fun e => hc ⟨e, h6⟩
        exact hc2 ⟨h4, by omega, h6⟩

end AudioSampleBuffer

/-! ## Phase arithmetic -/

theorem float_Pi_pos : (0 : ℚ) < float_Pi := by norm_num [float_Pi]

theorem truncToInt_of_nonneg {q : ℚ} (h : 0 ≤ q) : truncToInt q = ⌊q⌋ := by
  simp [truncToInt, h]

theorem truncToInt_neg (q : ℚ) : truncToInt (-q) = - truncToInt q := by
  unfold truncToInt
  rcases lt_trichotomy q 0 with h | h | h
  · have h1 : 0 ≤ -q := by linarith
    have h2 : ¬ 0 ≤ q := by linarith
    rw [if_pos h1, if_neg h2, Int.floor_neg]
  · subst h
    simp
  · have h1 : ¬ 0 ≤ -q := by linarith
    have h2 : 0 ≤ q := by linarith
    rw [if_neg h1, if_pos h2, Int.ceil_neg]

/-- The function `fmod` is odd in its first argument. -/
theorem fmod_neg (a m : ℚ) : fmod (-a) m = - fmod a m := by
  unfold fmod
  rw [neg_div, truncToInt_neg]
  push_cast
  ring

theorem fmod_nonneg {a m : ℚ} (ha : 0 ≤ a) (hm : 0 < m) : 0 ≤ fmod a m := by
  unfold fmod
  rw [truncToInt_of_nonneg (div_nonneg ha hm.le)]
  have h := Int.floor_le (a / m)
  have h2 : (⌊a / m⌋ : ℚ) * m ≤ a / m * m := mul_le_mul_of_nonneg_right h hm.le
  rw [div_mul_cancel₀ a hm.ne'] at h2
  linarith

/-- Reducing, stepping and reducing again is reducing the sum, for a phase
and a step that are both non-negative. -/
theorem fmod_add_of_nonneg {a d m : ℚ} (ha : 0 ≤ a) (hd : 0 ≤ d) (hm : 0 < m) :
    fmod (fmod a m + d) m = fmod (a + d) m := by
  have h0 : 0 ≤ fmod a m + d := add_nonneg (fmod_nonneg ha hm) hd
  have e : (fmod a m + d) / m = (a + d) / m - ((⌊a / m⌋ : Int) : ℚ) := by
    unfold fmod
    rw [truncToInt_of_nonneg (div_nonneg ha hm.le)]
    field_simp
    ring
  have e2 : truncToInt ((fmod a m + d) / m) = ⌊(a + d) / m⌋ - ⌊a / m⌋ := by
    rw [truncToInt_of_nonneg (div_nonneg h0 hm.le), e, Int.floor_sub_int]
  have e3 : truncToInt ((a + d) / m) = ⌊(a + d) / m⌋ :=
    truncToInt_of_nonneg (div_nonneg (add_nonneg ha hd) hm.le)
  have e4 : truncToInt (a / m) = ⌊a / m⌋ := truncToInt_of_nonneg (div_nonneg ha hm.le)
  have key : fmod (fmod a m + d) m
      = (fmod a m + d) - ((⌊(a + d) / m⌋ - ⌊a / m⌋ : Int) : ℚ) * m := by
    show (fmod a m + d) - ((truncToInt ((fmod a m + d) / m) : Int) : ℚ) * m = _
    rw [e2]
  rw [key]
  unfold fmod
  rw [e3, e4]
  push_cast
  ring

/-- The same for a phase and a step that are both non-positive. -/
theorem fmod_add_of_nonpos {a d m : ℚ} (ha : a ≤ 0) (hd : d ≤ 0) (hm : 0 < m) :
    fmod (fmod a m + d) m = fmod (a + d) m := by
  have h := fmod_add_of_nonneg (a := -a) (d := -d) (by linarith) (by linarith) hm
  rw [fmod_neg, ← neg_add, fmod_neg, ← neg_add, fmod_neg] at h
  exact neg_injective h

/-- The phase after `k + 1` unmodulated steps from phase 0. -/
theorem fmod_step (k : ℕ) (pd m : ℚ) (hm : 0 < m) :
    fmod (fmod ((k : ℚ) * pd) m + pd * 1) m = fmod (((k + 1 : ℕ) : ℚ) * pd) m := by
  have hk : (0 : ℚ) ≤ (k : ℚ) := Nat.cast_nonneg k
  have e : ((k + 1 : ℕ) : ℚ) * pd = (k : ℚ) * pd + pd * 1 := by push_cast; ring
  rw [e]
  rcases le_total 0 pd with h | h
  · exact fmod_add_of_nonneg (mul_nonneg hk h) (by linarith) hm
  · exact fmod_add_of_nonpos (mul_nonpos_of_nonneg_of_nonpos hk h) (by linarith) hm

namespace Voice

/-! ## The modulation renderer and the delay stage -/

theorem renderModulation_eq (x : Externals) (v : Voice) (n : Int) :
    ∃ ph pm, v.renderModulation x n =
      { v with lfo1 := { v.lfo1 with phase := ph }, pitchModBuffer := pm } := by
  unfold renderModulation
  refine forLoop_preserves
    (fun w => ∃ ph pm,
      w = { v with lfo1 := { v.lfo1 with phase := ph }, pitchModBuffer := pm }) _ _ _ ?_ ?_
  · exact ⟨v.lfo1.phase, v.pitchModBuffer, rfl⟩
  · rintro k _ st ⟨ph, pm, rfl⟩
    exact ⟨_, _, rfl⟩

/-- With LFO depth 0 every pitch-modulation value of the block is
`Param::fromSemi(0)`. -/
theorem renderModulation_depth_zero (x : Externals) (v : Voice) (n : Int)
    (hdepth : v.params.osc1lfo1depth = 0) (s : Int) (hs0 : 0 ≤ s) (hs : s < n) :
    (v.renderModulation x n).pitchModBuffer.data 0 s = x.fromSemi 0 := by
  have h := forLoop_invariant
    (fun (k : ℕ) (w : Voice) =>
      ∀ s : Int, 0 ≤ s → s < (k : Int) → w.pitchModBuffer.data 0 s = x.fromSemi 0)
    n (fun s w =>
      { w with
        lfo1 := (w.lfo1.next (Waveforms.sinus x.stdSin)).2
        pitchModBuffer := w.pitchModBuffer.setSample 0 s
          (x.fromSemi ((w.lfo1.next (Waveforms.sinus x.stdSin)).1 * v.params.osc1lfo1depth)) })
    v ?_ ?_
  · exact h s hs0 (by omega)
  · intro s h0 h1
    exfalso
    simp at h1
    omega
  · intro k _ st hst s h0 h1
    simp only [AudioSampleBuffer.setSample, hdepth, mul_zero]
    by_cases e : s = (k : Int)
    · simp [e]
    · rw [if_neg (fun h => e h.2)]
      apply hst s h0
      push_cast at h1
      omega

theorem copyRenderedBlockToDelayBuffer_eq (v : Voice) (b : AudioSampleBuffer) :
    ∃ d, v.copyRenderedBlockToDelayBuffer b = { v with delayBuffer := d } := by
  unfold copyRenderedBlockToDelayBuffer
  refine forLoop_preserves (fun w => ∃ d, w = { v with delayBuffer := d }) _ _ _ ?_ ?_
  · exact ⟨v.delayBuffer, rfl⟩
  · rintro k _ st hst
    refine forLoop_preserves (fun w => ∃ d, w = { v with delayBuffer := d }) _ _ _ ?_ ?_
    · exact hst
    · rintro c _ st2 ⟨d, rfl⟩
      exact ⟨_, rfl⟩

/-- A silent block copied into a silent delay line changes nothing. -/
theorem copyRenderedBlockToDelayBuffer_silent (v : Voice) (b : AudioSampleBuffer)
    (hv : ∀ c i, v.delayBuffer.data c i = 0) (hb : ∀ c i, b.data c i = 0) :
    v.copyRenderedBlockToDelayBuffer b = v := by
  unfold copyRenderedBlockToDelayBuffer
  refine forLoop_preserves (fun w => w = v) _ _ _ ?_ ?_
  · rfl
  · rintro k _ st rfl
    refine forLoop_preserves (fun w => w = st) _ _ _ ?_ ?_
    · rfl
    · rintro c _ st2 rfl
      have hd : (st2.delayBuffer.clear c 0 1).addSample c
          (st2.getDelayIndex (0 + (k : Int) + st2.delayOffsetInSamples))
          (b.getSample c (0 + (k : Int))) = st2.delayBuffer := by
        refine AudioSampleBuffer.ext_data ?_ ?_ ?_
        · rfl
        · rfl
        intro c' i'
        simp [AudioSampleBuffer.addSample, AudioSampleBuffer.clear,
          AudioSampleBuffer.getSample, hv, hb]
      simp only [hd]

/-- The mixing loop keeps the sizes of the output buffer and every sample
outside the rendered range. -/
theorem mixDelay_frame (v : Voice) (o : AudioSampleBuffer) (start n : Int) :
    (v.mixDelay o start n).numChannels = o.numChannels ∧
    (v.mixDelay o start n).numSamples = o.numSamples ∧
    ∀ c i, ¬ (start ≤ i ∧ i < start + n) →
      (v.mixDelay o start n).data c i = o.data c i := by
  unfold mixDelay
  refine forLoop_preserves
    (fun w : AudioSampleBuffer =>
      w.numChannels = o.numChannels ∧ w.numSamples = o.numSamples ∧
      ∀ c i, ¬ (start ≤ i ∧ i < start + n) → w.data c i = o.data c i) _ _ _ ?_ ?_
  · exact ⟨rfl, rfl, fun _ _ _ => rfl⟩
  · rintro k hk st hst
    refine forLoop_preserves
      (fun w : AudioSampleBuffer =>
      w.numChannels = o.numChannels ∧ w.numSamples = o.numSamples ∧
        ∀ c i, ¬ (start ≤ i ∧ i < start + n) → w.data c i = o.data c i) _ _ _ ?_ ?_
    · exact hst
    · rintro c _ st2 ⟨h1, h2, h3⟩
      refine ⟨h1, h2, fun c' i' hi => ?_⟩
      have e1 : ¬ (c' = (c : Int) ∧ i' = start + (k : Int)) := by
        rintro ⟨_, e⟩
        apply hi
        constructor <;> omega
      have e2 : ¬ (c' = (c : Int) ∧ start ≤ i' ∧ i' < start + 1) := by
        rintro ⟨_, e⟩
        apply hi
        constructor <;> omega
      simp only [AudioSampleBuffer.addSample, AudioSampleBuffer.clear, if_neg e1, if_neg e2]
      exact h3 c' i' hi

/-- The mixing loop leaves a silent buffer silent when the delay line is
silent. -/
theorem mixDelay_silent (v : Voice) (o : AudioSampleBuffer) (start n : Int)
    (hv : ∀ c i, v.delayBuffer.data c i = 0) (ho : ∀ c i, o.data c i = 0) :
    v.mixDelay o start n = o := by
  unfold mixDelay
  refine forLoop_preserves (fun w => w = o) _ _ _ ?_ ?_
  · rfl
  · rintro k _ st rfl
    refine forLoop_preserves (fun w => w = st) _ _ _ ?_ ?_
    · rfl
    · rintro c _ st2 rfl
      refine AudioSampleBuffer.ext_data rfl rfl (fun c' i' => ?_)
      simp [AudioSampleBuffer.addSample, AudioSampleBuffer.clear,
        AudioSampleBuffer.getSample, hv, ho]

/-! ## The carrier stage -/

/-- One iteration of the release loop. -/
theorem releaseLoop_succ (start : Int) (amp : ℚ) (pm : Int → ℚ) (m : ℕ) (s : Int)
    (v : Voice) (out : AudioSampleBuffer) :
    releaseLoop start amp pm (m + 1) s v out =
      if v.tailOff * v.params.decayFac ≤ 0.005 then
        ({ v with osc1 := (v.osc1.nextPitchMod Waveforms.square (pm s)).2,
                  lfo1 := { phase := 0, phaseDelta := 0 },
                  tailOff := v.tailOff * v.params.decayFac,
                  currentlyPlayingNote := -1 },
         forLoop out.numChannels (fun c o => o.addSample c (start + s)
           ((v.osc1.nextPitchMod Waveforms.square (pm s)).1 * v.level * v.tailOff * amp)) out)
      else
        releaseLoop start amp pm m (s + 1)
          { v with osc1 := (v.osc1.nextPitchMod Waveforms.square (pm s)).2,
                   tailOff := v.tailOff * v.params.decayFac }
          (forLoop out.numChannels (fun c o => o.addSample c (start + s)
            ((v.osc1.nextPitchMod Waveforms.square (pm s)).1 * v.level * v.tailOff * amp)) out) :=
  rfl

/-- The release loop keeps the sizes of the output buffer and writes only
positions `startSample + s ≤ i < startSample + s + remaining`. -/
theorem releaseLoop_frame (start : Int) (amp : ℚ) (pm : Int → ℚ) (remaining : ℕ) :
    ∀ (s : Int) (v : Voice) (out : AudioSampleBuffer),
    (releaseLoop start amp pm remaining s v out).2.numChannels = out.numChannels ∧
    (releaseLoop start amp pm remaining s v out).2.numSamples = out.numSamples ∧
    ∀ c i, ¬ (start + s ≤ i ∧ i < start + s + remaining) →
      (releaseLoop start amp pm remaining s v out).2.data c i = out.data c i := by
  induction remaining with
  | zero => intro s v out; exact ⟨rfl, rfl, fun _ _ _ => rfl⟩
  | succ m ih =>
    intro s v out
    obtain ⟨a1, a2, a3⟩ := AudioSampleBuffer.addSample_channels out out.numChannels (start + s)
      ((v.osc1.nextPitchMod Waveforms.square (pm s)).1 * v.level * v.tailOff * amp)
    have hi : ∀ i : Int, ¬ (start + s ≤ i ∧ i < start + s + ((m + 1 : ℕ) : Int)) →
        i ≠ start + s := by
      intro i h e
      apply h
      push_cast
      constructor <;> omega
    simp only [releaseLoop]
    split
    · refine ⟨a1, a2, fun c i h => ?_⟩
      simp only []
      rw [a3, if_neg]
      rintro ⟨_, _, e⟩
      exact hi i h e
    · obtain ⟨b1, b2, b3⟩ := ih (s + 1)
        { v with osc1 := (v.osc1.nextPitchMod Waveforms.square (pm s)).2,
                 tailOff := v.tailOff * v.params.decayFac }
        (forLoop out.numChannels (fun c o => o.addSample c (start + s)
          ((v.osc1.nextPitchMod Waveforms.square (pm s)).1 * v.level * v.tailOff * amp)) out)
      refine ⟨b1.trans a1, b2.trans a2, fun c i h => ?_⟩
      rw [b3, a3, if_neg]
      · rintro ⟨_, _, e⟩
        exact hi i h e
      · rintro ⟨e1, e2⟩
        apply h
        push_cast
        constructor <;> omega

/-- The sustain loop keeps the sizes of the output buffer and writes only
positions `startSample ≤ i < startSample + numSamples`. -/
theorem sustainLoop_frame (start : Int) (amp : ℚ) (pm : Int → ℚ) (n : Int) (v : Voice)
    (out : AudioSampleBuffer) :
    (sustainLoop start amp pm n v out).2.numChannels = out.numChannels ∧
    (sustainLoop start amp pm n v out).2.numSamples = out.numSamples ∧
    ∀ c i, ¬ (start ≤ i ∧ i < start + n) →
      (sustainLoop start amp pm n v out).2.data c i = out.data c i := by
  unfold sustainLoop
  refine forLoop_preserves
    (fun st : Voice × AudioSampleBuffer =>
      st.2.numChannels = out.numChannels ∧ st.2.numSamples = out.numSamples ∧
      ∀ c i, ¬ (start ≤ i ∧ i < start + n) → st.2.data c i = out.data c i) _ _ _ ?_ ?_
  · exact ⟨rfl, rfl, fun _ _ _ => rfl⟩
  · rintro k hk ⟨w, b⟩ ⟨h1, h2, h3⟩
    obtain ⟨a1, a2, a3⟩ := AudioSampleBuffer.addSample_channels b b.numChannels (start + k)
      ((w.osc1.nextPitchMod Waveforms.square (pm k)).1 * w.level * amp)
    refine ⟨a1.trans h1, a2.trans h2, fun c i h => ?_⟩
    simp only at h3 ⊢
    rw [a3, if_neg, h3 c i h]
    rintro ⟨_, _, e⟩
    apply h
    constructor <;> omega

/-- The sustain loop, started at phase 0 with every pitch-modulation value
equal to 1, adds the unmodulated square-wave sequence. -/
theorem sustainLoop_unmodulated (start : Int) (amp : ℚ) (pm : Int → ℚ) (n : Int) (v : Voice)
    (out : AudioSampleBuffer) (hpm : ∀ s : Int, 0 ≤ s → s < n → pm s = 1)
    (hphase : v.osc1.phase = 0) (c i : Int) :
    (sustainLoop start amp pm n v out).2.data c i =
      if 0 ≤ c ∧ c < out.numChannels ∧ start ≤ i ∧ i < start + n then
        out.data c i +
          Waveforms.square (fmod (((i - start : Int) : ℚ) * v.osc1.phaseDelta) (float_Pi * 2))
            * v.level * amp
      else out.data c i := by
  have hm : (0 : ℚ) < float_Pi * 2 := by have := float_Pi_pos; linarith
  have h := forLoop_invariant
    (fun (k : ℕ) (st : Voice × AudioSampleBuffer) =>
      st.1.level = v.level ∧ st.1.osc1.phaseDelta = v.osc1.phaseDelta ∧
      st.1.osc1.phase = fmod ((k : ℚ) * v.osc1.phaseDelta) (float_Pi * 2) ∧
      st.2.numChannels = out.numChannels ∧
      ∀ c i : Int, st.2.data c i =
        if 0 ≤ c ∧ c < out.numChannels ∧ start ≤ i ∧ i < start + (k : Int) then
          out.data c i +
            Waveforms.square (fmod (((i - start : Int) : ℚ) * v.osc1.phaseDelta) (float_Pi * 2))
              * v.level * amp
        else out.data c i)
    n (fun s st =>
      ({ st.1 with osc1 := (st.1.osc1.nextPitchMod Waveforms.square (pm s)).2 },
       forLoop st.2.numChannels (fun c o => o.addSample c (start + s)
         ((st.1.osc1.nextPitchMod Waveforms.square (pm s)).1 * st.1.level * amp)) st.2))
    (v, out) ?_ ?_
  · have h5 := h.2.2.2.2 c i
    unfold sustainLoop
    rw [h5]
    by_cases hc : 0 ≤ c ∧ c < out.numChannels ∧ start ≤ i ∧ i < start + n
    · rw [if_pos hc, if_pos]
      refine ⟨hc.1, hc.2.1, hc.2.2.1, ?_⟩
      have := hc.2.2.2
      omega
    · rw [if_neg hc, if_neg]
      rintro ⟨h1, h2, h3, h4⟩
      exact hc ⟨h1, h2, h3, by omega⟩
  · refine ⟨rfl, rfl, ?_, rfl, fun c i => ?_⟩
    · simp [hphase, fmod, truncToInt]
    · rw [if_neg]
      rintro ⟨_, _, h3, h4⟩
      simp at h4
      omega
  · rintro k hk ⟨w, b⟩ ⟨h1, h2, h3, h4, h5⟩
    simp only at h1 h2 h3 h4 h5
    obtain ⟨_, _, a3⟩ := AudioSampleBuffer.addSample_channels b b.numChannels (start + k)
      ((w.osc1.nextPitchMod Waveforms.square (pm k)).1 * w.level * amp)
    obtain ⟨a1, _, _⟩ := AudioSampleBuffer.addSample_channels b b.numChannels (start + k)
      ((w.osc1.nextPitchMod Waveforms.square (pm k)).1 * w.level * amp)
    refine ⟨h1, h2, ?_, a1.trans h4, fun c i => ?_⟩
    · simp only [Oscillator.nextPitchMod, h2, h3, hpm k (by omega) hk]
      exact fmod_step k _ _ hm
    · simp only []
      rw [a3, h5, h4]
      simp only [Oscillator.nextPitchMod, h1, h3]
      by_cases e : i = start + (k : Int)
      · subst e
        by_cases hc : 0 ≤ c ∧ c < out.numChannels
        · rw [if_pos ⟨hc.1, hc.2, rfl⟩, if_neg (by omega), if_pos (by push_cast; omega)]
          simp
        · rw [if_neg (fun h => hc ⟨h.1, h.2.1⟩), if_neg (fun h => hc ⟨h.1, h.2.1⟩),
            if_neg (fun h => hc ⟨h.1, h.2.1⟩)]
      · rw [if_neg (fun h => e h.2.2)]
        by_cases hc : 0 ≤ c ∧ c < out.numChannels ∧ start ≤ i ∧ i < start + (k : Int)
        · rw [if_pos hc, if_pos]
          refine ⟨hc.1, hc.2.1, hc.2.2.1, ?_⟩
          push_cast
          omega
        · rw [if_neg hc, if_neg]
          rintro ⟨g1, g2, g3, g4⟩
          push_cast at g4
          exact hc ⟨g1, g2, g3, by omega⟩

/-- The carrier stage keeps the sizes of the output buffer and every sample
outside the rendered range. -/
theorem renderCarrier_frame (x : Externals) (v : Voice) (out : AudioSampleBuffer)
    (start n : Int) :
    (v.renderCarrier x out start n).2.numChannels = out.numChannels ∧
    (v.renderCarrier x out start n).2.numSamples = out.numSamples ∧
    ∀ c i, ¬ (start ≤ i ∧ i < start + n) →
      (v.renderCarrier x out start n).2.data c i = out.data c i := by
  simp only [renderCarrier]
  split
  · split
    · obtain ⟨h1, h2, h3⟩ := releaseLoop_frame start (v.renderModulation x n).params.vol
        (fun s => (v.renderModulation x n).pitchModBuffer.data 0 s) n.toNat 0
        (v.renderModulation x n) out
      refine ⟨h1, h2, fun c i h => h3 c i ?_⟩
      rintro ⟨e1, e2⟩
      apply h
      constructor <;> omega
    · exact sustainLoop_frame _ _ _ _ _ _
  · exact ⟨rfl, rfl, fun _ _ _ => rfl⟩

/-- With the LFO inactive the carrier stage adds nothing. -/
theorem renderCarrier_inactive (x : Externals) (v : Voice) (out : AudioSampleBuffer)
    (start n : Int) (h : v.lfo1.isActive = false) :
    v.renderCarrier x out start n = (v.renderModulation x n, out) := by
  obtain ⟨ph, pm, e⟩ := renderModulation_eq x v n
  have h' : (v.renderModulation x n).lfo1.isActive = false := by
    rw [e]
    simpa [Oscillator.isActive] using h
  simp [renderCarrier, h']

/-- While releasing with the LFO active, the carrier stage is the release
loop run on the voice left by the modulation renderer. -/
theorem renderCarrier_releasing (x : Externals) (v : Voice) (out : AudioSampleBuffer)
    (start n : Int) (ht : 0 < v.tailOff) (hl : v.lfo1.isActive = true) :
    v.renderCarrier x out start n =
      releaseLoop start v.params.vol (fun s => (v.renderModulation x n).pitchModBuffer.data 0 s)
        n.toNat 0 (v.renderModulation x n) out := by
  obtain ⟨ph, pm, e⟩ := renderModulation_eq x v n
  have hl' : (v.renderModulation x n).lfo1.isActive = true := by
    rw [e]; simpa [Oscillator.isActive] using hl
  have ht' : (v.renderModulation x n).tailOff > 0 := by
    rw [e]; exact ht
  have hp : (v.renderModulation x n).params = v.params := by rw [e]
  simp only [renderCarrier, hl', if_true, if_pos ht', hp]

/-! ## The release envelope -/

/-- While the envelope stays above the floor the release loop runs through
all its samples and multiplies `tailOff` by the decay factor once per
sample; the LFO and the note are untouched. -/
theorem releaseLoop_above_floor (start : Int) (amp : ℚ) (pm : Int → ℚ) (remaining : ℕ) :
    ∀ (s : Int) (v : Voice) (out : AudioSampleBuffer),
    (∀ j : ℕ, 1 ≤ j → j ≤ remaining → 0.005 < v.tailOff * v.params.decayFac ^ j) →
    ∃ o, (releaseLoop start amp pm remaining s v out).1 =
      { v with osc1 := o, tailOff := v.tailOff * v.params.decayFac ^ remaining } := by
  induction remaining with
  | zero =>
    intro s v out _
    refine ⟨v.osc1, ?_⟩
    simp [releaseLoop]
  | succ m ih =>
    intro s v out h
    have h1 : ¬ v.tailOff * v.params.decayFac ≤ 0.005 := by
      have := h 1 le_rfl (by omega)
      rw [pow_one] at this
      exact not_le.mpr this
    have ep : ∀ j : ℕ, v.tailOff * v.params.decayFac * v.params.decayFac ^ j
        = v.tailOff * v.params.decayFac ^ (j + 1) := fun j => by rw [pow_succ]; ring
    simp only [releaseLoop, if_neg h1]
    obtain ⟨o, ho⟩ := ih (s + 1)
      { v with osc1 := (v.osc1.nextPitchMod Waveforms.square (pm s)).2,
               tailOff := v.tailOff * v.params.decayFac }
      (forLoop out.numChannels (fun c o => o.addSample c (start + s)
        ((v.osc1.nextPitchMod Waveforms.square (pm s)).1 * v.level * v.tailOff * amp)) out)
      (fun j hj1 hj2 => by
        show 0.005 < v.tailOff * v.params.decayFac * v.params.decayFac ^ j
        rw [ep]
        exact h (j + 1) (by omega) (by omega))
    refine ⟨o, ?_⟩
    rw [ho]
    simp only [ep]

/-- When the envelope first reaches the floor at sample `K`, the release
loop stops there whatever the block length, with the note cleared and the
LFO reset. -/
theorem releaseLoop_reaches_floor (start : Int) (amp : ℚ) (pm : Int → ℚ) (K : ℕ) :
    ∀ (extra : ℕ) (s : Int) (v : Voice) (out : AudioSampleBuffer),
    (∀ j : ℕ, 1 ≤ j → j ≤ K → 0.005 < v.tailOff * v.params.decayFac ^ j) →
    v.tailOff * v.params.decayFac ^ (K + 1) ≤ 0.005 →
    releaseLoop start amp pm (K + 1 + extra) s v out = releaseLoop start amp pm (K + 1) s v out ∧
    ∃ o, (releaseLoop start amp pm (K + 1) s v out).1 =
      { v with osc1 := o, lfo1 := { phase := 0, phaseDelta := 0 },
               tailOff := v.tailOff * v.params.decayFac ^ (K + 1),
               currentlyPlayingNote := -1 } := by
  induction K with
  | zero =>
    intro extra s v out _ h
    have h1 : v.tailOff * v.params.decayFac ≤ 0.005 := by simpa using h
    have e : 0 + 1 + extra = extra + 1 := by omega
    refine ⟨?_, (v.osc1.nextPitchMod Waveforms.square (pm s)).2, ?_⟩
    · rw [e, releaseLoop_succ, releaseLoop_succ, if_pos h1, if_pos h1]
    · rw [releaseLoop_succ, if_pos h1]
      simp
  | succ K ih =>
    intro extra s v out hj h
    have h1 : ¬ v.tailOff * v.params.decayFac ≤ 0.005 := by
      have := hj 1 le_rfl (by omega)
      rw [pow_one] at this
      exact not_le.mpr this
    have e : K + 1 + 1 + extra = (K + 1 + extra) + 1 := by omega
    have ep : ∀ j : ℕ, v.tailOff * v.params.decayFac * v.params.decayFac ^ j
        = v.tailOff * v.params.decayFac ^ (j + 1) := fun j => by rw [pow_succ]; ring
    obtain ⟨g1, o, g2⟩ := ih extra (s + 1)
      { v with osc1 := (v.osc1.nextPitchMod Waveforms.square (pm s)).2,
               tailOff := v.tailOff * v.params.decayFac }
      (forLoop out.numChannels (fun c o => o.addSample c (start + s)
        ((v.osc1.nextPitchMod Waveforms.square (pm s)).1 * v.level * v.tailOff * amp)) out)
      (fun j hj1 hj2 => by
        show 0.005 < v.tailOff * v.params.decayFac * v.params.decayFac ^ j
        rw [ep]
        exact hj (j + 1) (by omega) (by omega))
      (by
        show v.tailOff * v.params.decayFac * v.params.decayFac ^ (K + 1) ≤ 0.005
        rw [ep]
        exact h)
    refine ⟨?_, o, ?_⟩
    · rw [e, releaseLoop_succ, if_neg h1, releaseLoop_succ _ _ _ (K + 1), if_neg h1]
      exact g1
    · rw [releaseLoop_succ, if_neg h1, g2]
      simp only [ep]

/-- A decaying envelope reaches the floor: there is a first sample `K` after
which `tailOff` is at most `0.005`. -/
theorem exists_floor_crossing (t d : ℚ) (ht : 0 < t) (hd0 : 0 < d) (hd1 : d < 1) :
    ∃ K : ℕ, (∀ j : ℕ, 1 ≤ j → j ≤ K → 0.005 < t * d ^ j) ∧
      t * d ^ (K + 1) ≤ 0.005 := by
  have hex : ∃ k : ℕ, t * d ^ (k + 1) ≤ 0.005 := by
    obtain ⟨n, hn⟩ := exists_pow_lt_of_lt_one (show (0 : ℚ) < 0.005 / t by positivity) hd1
    refine ⟨n, ?_⟩
    have h1 : t * d ^ n < 0.005 := by
      have := mul_lt_mul_of_pos_left hn ht
      rwa [mul_div_cancel₀ _ ht.ne'] at this
    have h2 : d ^ (n + 1) ≤ d ^ n := pow_le_pow_of_le_one hd0.le hd1.le (Nat.le_succ n)
    have h3 : t * d ^ (n + 1) ≤ t * d ^ n := mul_le_mul_of_nonneg_left h2 ht.le
    linarith
  classical
  refine ⟨Nat.find hex, fun j hj1 hj2 => ?_, Nat.find_spec hex⟩
  have h := Nat.find_min hex (m := j - 1) (by omega)
  have e : j - 1 + 1 = j := by omega
  rw [e] at h
  exact not_le.mp h

/-- The voice after a block that ends before the envelope reaches the floor. -/
theorem renderNextBlock_release_above (x : Externals) (v : Voice) (out : AudioSampleBuffer)
    (start : Int) (k : ℕ) (ht : 0 < v.tailOff) (hl : v.lfo1.isActive = true)
    (hk : ∀ j : ℕ, 1 ≤ j → j ≤ k → 0.005 < v.tailOff * v.params.decayFac ^ j) :
    ∃ o ph pmb dl, (v.renderNextBlock x out start (k : Int)).1 =
      { v with osc1 := o, lfo1 := { v.lfo1 with phase := ph },
               tailOff := v.tailOff * v.params.decayFac ^ k,
               pitchModBuffer := pmb, delayBuffer := dl } := by
  obtain ⟨ph, pm, e⟩ := renderModulation_eq x v (k : Int)
  obtain ⟨o, ho⟩ := releaseLoop_above_floor start v.params.vol
    (fun s => (v.renderModulation x (k : Int)).pitchModBuffer.data 0 s) k 0
    (v.renderModulation x (k : Int)) out (by rw [e]; exact hk)
  obtain ⟨dl, hdl⟩ := copyRenderedBlockToDelayBuffer_eq
    (v.renderCarrier x out start (k : Int)).1 (v.renderCarrier x out start (k : Int)).2
  refine ⟨o, ph, pm, dl, ?_⟩
  simp only [renderNextBlock]
  rw [hdl, renderCarrier_releasing x v out start (k : Int) ht hl, Int.toNat_ofNat, ho, e]

/-- The voice after a block in which the envelope reaches the floor at
sample `K`, and the samples the carrier stage leaves alone. -/
theorem renderNextBlock_release_floor (x : Externals) (v : Voice) (out : AudioSampleBuffer)
    (start n : Int) (K : ℕ) (ht : 0 < v.tailOff) (hl : v.lfo1.isActive = true)
    (hK : ∀ j : ℕ, 1 ≤ j → j ≤ K → 0.005 < v.tailOff * v.params.decayFac ^ j)
    (hfloor : v.tailOff * v.params.decayFac ^ (K + 1) ≤ 0.005) (hn : (K : Int) < n) :
    (∃ o pmb dl, (v.renderNextBlock x out start n).1 =
      { v with osc1 := o, lfo1 := { phase := 0, phaseDelta := 0 },
               tailOff := v.tailOff * v.params.decayFac ^ (K + 1),
               pitchModBuffer := pmb, delayBuffer := dl, currentlyPlayingNote := -1 }) ∧
    ∀ c i : Int, ¬ (start ≤ i ∧ i ≤ start + (K : Int)) →
      (v.renderCarrier x out start n).2.data c i = out.data c i := by
  obtain ⟨ph, pm, e⟩ := renderModulation_eq x v n
  have en : n.toNat = K + 1 + (n.toNat - (K + 1)) := by omega
  obtain ⟨g1, o, g2⟩ := releaseLoop_reaches_floor start v.params.vol
    (fun s => (v.renderModulation x n).pitchModBuffer.data 0 s) K (n.toNat - (K + 1)) 0
    (v.renderModulation x n) out (by rw [e]; exact hK) (by rw [e]; exact hfloor)
  obtain ⟨dl, hdl⟩ := copyRenderedBlockToDelayBuffer_eq (v.renderCarrier x out start n).1
    (v.renderCarrier x out start n).2
  have hc : v.renderCarrier x out start n = releaseLoop start v.params.vol
      (fun s => (v.renderModulation x n).pitchModBuffer.data 0 s) (K + 1) 0
      (v.renderModulation x n) out := by
    rw [renderCarrier_releasing x v out start n ht hl, en, g1]
  constructor
  · refine ⟨o, pm, dl, ?_⟩
    simp only [renderNextBlock]
    rw [hdl, hc, g2, e]
  · intro c i hi
    rw [hc]
    obtain ⟨_, _, f3⟩ := releaseLoop_frame start v.params.vol
      (fun s => (v.renderModulation x n).pitchModBuffer.data 0 s) (K + 1) 0
      (v.renderModulation x n) out
    apply f3
    rintro ⟨h1, h2⟩
    apply hi
    push_cast at h2
    constructor <;> omega

/-- A voice whose LFO is inactive keeps it inactive through `renderNextBlock`. -/
theorem renderNextBlock_keeps_inactive (x : Externals) (v : Voice) (out : AudioSampleBuffer)
    (start n : Int) (hl : v.lfo1.isActive = false) :
    (v.renderNextBlock x out start n).1.lfo1.isActive = false := by
  obtain ⟨ph, pm, e⟩ := renderModulation_eq x v n
  obtain ⟨dl, hdl⟩ := copyRenderedBlockToDelayBuffer_eq (v.renderCarrier x out start n).1
    (v.renderCarrier x out start n).2
  simp only [renderNextBlock]
  rw [hdl, renderCarrier_inactive x v out start n hl, e]
  simpa [Oscillator.isActive] using hl

/-- No sequence of render and note-off calls re-arms an inactive LFO. -/
theorem afterCalls_keeps_inactive (x : Externals) (calls : List Call) :
    ∀ v : Voice, v.lfo1.isActive = false → (v.afterCalls x calls).lfo1.isActive = false := by
  induction calls with
  | nil => intro v h; exact h
  | cons a rest ih =>
    intro v h
    cases a with
    | render o s n =>
      exact ih _ (renderNextBlock_keeps_inactive x v o s n h)
    | stop vel allow =>
      apply ih
      cases allow
      · simp [stopNote, Oscillator.reset, Oscillator.isActive]
      · by_cases h0 : v.tailOff = 0
        · simpa [stopNote, h0] using h
        · simpa [stopNote, h0] using h

end Voice

/-! ## Float rounding -/

theorem roundHalfEven_of_abs_lt (x : ℚ) (n : Int) (h : |x - n| < 1 / 2) :
    roundHalfEven x = n := by
  rw [abs_lt] at h
  unfold roundHalfEven
  by_cases h0 : (n : ℚ) ≤ x
  · have hf : ⌊x⌋ = n := by
      rw [Int.floor_eq_iff]
      constructor
      · exact h0
      · linarith
    rw [hf, if_pos (by linarith)]
  · have hf : ⌊x⌋ = n - 1 := by
      rw [Int.floor_eq_iff]
      push_cast
      constructor <;> linarith
    rw [hf]
    push_cast
    rw [if_neg (by linarith), if_pos (by linarith)]
    ring

theorem roundHalfEven_tie (k : Int) :
    roundHalfEven ((k : ℚ) + 1 / 2) = if k % 2 = 0 then k else k + 1 := by
  have hf : ⌊(k : ℚ) + 1 / 2⌋ = k := by
    rw [Int.floor_eq_iff]
    constructor <;> linarith
  unfold roundHalfEven
  rw [hf, if_neg (by linarith), if_neg (by linarith)]

/-- The binade of a non-zero rational. -/
theorem log_abs_eq (x : ℚ) (e : Int) (h1 : (2 : ℚ) ^ e ≤ |x|) (h2 : |x| < (2 : ℚ) ^ (e + 1)) :
    Int.log 2 |x| = e := by
  have hpos : 0 < |x| := lt_of_lt_of_le (by positivity) h1
  have a := (Int.zpow_le_iff_le_log (b := 2) (by norm_num) hpos).mp (by exact_mod_cast h1)
  have b := (Int.lt_zpow_iff_log_lt (b := 2) (by norm_num) hpos).mp (by exact_mod_cast h2)
  omega

/-- Evaluation of `roundFloat32` in a known binade. -/
theorem roundFloat32_eq (x : ℚ) (e n : Int) (he : -126 ≤ e) (h1 : (2 : ℚ) ^ e ≤ |x|)
    (h2 : |x| < (2 : ℚ) ^ (e + 1)) (hn : roundHalfEven (x / 2 ^ (e - 23)) = n) :
    roundFloat32 x = (n : ℚ) * 2 ^ (e - 23) := by
  have hpos : 0 < |x| := lt_of_lt_of_le (by positivity) h1
  have hx : x ≠ 0 := abs_pos.mp hpos
  unfold roundFloat32
  rw [if_neg hx, log_abs_eq x e h1 h2, max_eq_left he, hn]

theorem roundFloat32_zero : roundFloat32 0 = 0 := by simp [roundFloat32]

/-- A value already in `[0, m)` is its own remainder. -/
theorem fmod_of_lt {a m : ℚ} (h0 : 0 ≤ a) (h1 : a < m) : fmod a m = a := by
  have hm : 0 < m := lt_of_le_of_lt h0 h1
  unfold fmod
  rw [truncToInt_of_nonneg (div_nonneg h0 hm.le)]
  have hf : ⌊a / m⌋ = 0 := by
    rw [Int.floor_eq_iff]
    constructor
    · simpa using div_nonneg h0 hm.le
    · simpa using (div_lt_one hm).mpr h1
  rw [hf]
  simp

namespace Oscillator

/-- With a pitch modulation of 1 and a phase increment that is a value of the
rounding, the modulated step is the unmodulated step. -/
theorem nextPitchModRounded_one (rnd : ℚ → ℚ) (w : ℚ → ℚ) (o : Oscillator)
    (h : rnd o.phaseDelta = o.phaseDelta) :
    o.nextPitchModRounded rnd w 1 = o.nextRounded rnd w := by
  simp [nextPitchModRounded, nextRounded, h]

theorem nextSamplesRounded_phaseDelta (rnd : ℚ → ℚ) (w : ℚ → ℚ) (n : ℕ) :
    ∀ o : Oscillator, (o.nextSamplesRounded rnd w n).2.phaseDelta = o.phaseDelta := by
  induction n with
  | zero => intro o; rfl
  | succ n ih =>
    intro o
    simp only [nextSamplesRounded]
    rw [ih]
    rfl

/-- One more call: the oscillator after `n + 1` calls is the oscillator after
`n` calls, stepped once. -/
theorem nextSamplesRounded_succ (rnd : ℚ → ℚ) (w : ℚ → ℚ) (n : ℕ) :
    ∀ o : Oscillator, (o.nextSamplesRounded rnd w (n + 1)).2 =
      ((o.nextSamplesRounded rnd w n).2.nextRounded rnd w).2 := by
  induction n with
  | zero => intro o; rfl
  | succ n ih =>
    intro o
    have h := ih (o.nextRounded rnd w).2
    simp only [nextSamplesRounded] at h ⊢
    exact h

end Oscillator

namespace AudioSampleBuffer

/-- Adding one value, with rounding, at position `i` of every channel. -/
theorem addSampleRounded_channels (rnd : ℚ → ℚ) (b : AudioSampleBuffer) (nc i : Int) (x : ℚ) :
    (forLoop nc (fun c o => o.addSampleRounded rnd c i x) b).numChannels = b.numChannels ∧
    (forLoop nc (fun c o => o.addSampleRounded rnd c i x) b).numSamples = b.numSamples ∧
    ∀ c' i', (forLoop nc (fun c o => o.addSampleRounded rnd c i x) b).data c' i' =
      if 0 ≤ c' ∧ c' < nc ∧ i' = i then rnd (b.data c' i' + x) else b.data c' i' := by
  have h := forLoop_invariant
    (fun k o => o.numChannels = b.numChannels ∧ o.numSamples = b.numSamples ∧
      ∀ c' i', o.data c' i' =
        if 0 ≤ c' ∧ c' < (k : Int) ∧ i' = i then rnd (b.data c' i' + x) else b.data c' i')
    nc (fun c o => o.addSampleRounded rnd c i x) b ?_ ?_
  · refine ⟨h.1, h.2.1, fun c' i' => ?_⟩
    rw [h.2.2 c' i']
    by_cases hc : 0 ≤ c' ∧ c' < nc ∧ i' = i
    · rw [if_pos hc, if_pos]
      refine ⟨hc.1, ?_, hc.2.2⟩
      have := hc.2.1
      omega
    · rw [if_neg hc, if_neg]
      rintro ⟨h1, h2, h3⟩
      exact hc ⟨h1, by omega, h3⟩
  · refine ⟨rfl, rfl, fun c' i' => ?_⟩
    rw [if_neg]
    rintro ⟨h1, h2, _⟩
    simp at h2
    omega
  · rintro k hk st ⟨h1, h2, h3⟩
    refine ⟨h1, h2, fun c' i' => ?_⟩
    simp only [addSampleRounded, h3]
    by_cases hc : c' = (k : Int) ∧ i' = i
    · obtain ⟨rfl, rfl⟩ := hc
      simp
    · rw [if_neg hc]
      by_cases hc2 : 0 ≤ c' ∧ c' < (k : Int) ∧ i' = i
      · rw [if_pos hc2, if_pos]
        refine ⟨hc2.1, ?_, hc2.2.2⟩
        push_cast
        omega
      · rw [if_neg hc2, if_neg]
        rintro ⟨h4, h5, h6⟩
        push_cast at h5
        have : c' ≠ (k : Int) := fun e => hc ⟨e, h6⟩
        exact hc2 ⟨h4, by omega, h6⟩

end AudioSampleBuffer

namespace Voice

theorem renderModulationRounded_eq (rnd : ℚ → ℚ) (x : Externals) (v : Voice) (n : Int) :
    ∃ ph pm, v.renderModulationRounded rnd x n =
      { v with lfo1 := { v.lfo1 with phase := ph }, pitchModBuffer := pm } := by
  unfold renderModulationRounded
  refine forLoop_preserves
    (fun w => ∃ ph pm,
      w = { v with lfo1 := { v.lfo1 with phase := ph }, pitchModBuffer := pm }) _ _ _ ?_ ?_
  · exact ⟨v.lfo1.phase, v.pitchModBuffer, rfl⟩
  · rintro k _ st ⟨ph, pm, rfl⟩
    exact ⟨_, _, rfl⟩

/-- With LFO depth 0 and a rounding that keeps 0, every pitch-modulation
value of the block is `Param::fromSemi(0)`. -/
theorem renderModulationRounded_depth_zero (rnd : ℚ → ℚ) (x : Externals) (v : Voice) (n : Int)
    (hrnd : rnd 0 = 0) (hdepth : v.params.osc1lfo1depth = 0) (s : Int) (hs0 : 0 ≤ s)
    (hs : s < n) :
    (v.renderModulationRounded rnd x n).pitchModBuffer.data 0 s = x.fromSemi 0 := by
  have h := forLoop_invariant
    (fun (k : ℕ) (w : Voice) =>
      ∀ s : Int, 0 ≤ s → s < (k : Int) → w.pitchModBuffer.data 0 s = x.fromSemi 0)
    n (fun s w =>
      { w with
        lfo1 := (w.lfo1.nextRounded rnd (Waveforms.sinus x.stdSin)).2
        pitchModBuffer := w.pitchModBuffer.setSample 0 s
          (x.fromSemi (rnd ((w.lfo1.nextRounded rnd (Waveforms.sinus x.stdSin)).1
            * v.params.osc1lfo1depth))) })
    v ?_ ?_
  · exact h s hs0 (by omega)
  · intro s h0 h1
    exfalso
    simp at h1
    omega
  · intro k _ st hst s h0 h1
    simp only [AudioSampleBuffer.setSample, hdepth, mul_zero, hrnd]
    by_cases e : s = (k : Int)
    · simp [e]
    · rw [if_neg (fun h => e h.2)]
      apply hst s h0
      push_cast at h1
      omega

/-- The sustain loop computed with rounding, with every pitch-modulation
value equal to 1 and a phase increment that is a value of the rounding, adds
the samples of the unmodulated `next()` sequence of the carrier. -/
theorem sustainLoopRounded_unmodulated (rnd : ℚ → ℚ) (start : Int) (amp : ℚ) (pm : Int → ℚ)
    (n : Int) (v : Voice) (out : AudioSampleBuffer)
    (hpm : ∀ s : Int, 0 ≤ s → s < n → pm s = 1)
    (hpd : rnd v.osc1.phaseDelta = v.osc1.phaseDelta) (c i : Int) :
    (sustainLoopRounded rnd start amp pm n v out).2.data c i =
      if 0 ≤ c ∧ c < out.numChannels ∧ start ≤ i ∧ i < start + n then
        rnd (out.data c i +
          rnd (rnd (Waveforms.square
            (v.osc1.nextSamplesRounded rnd Waveforms.square (i - start).toNat).2.phase
              * v.level) * amp))
      else out.data c i := by
  have h := forLoop_invariant
    (fun (k : ℕ) (st : Voice × AudioSampleBuffer) =>
      st.1.level = v.level ∧
      st.1.osc1 = (v.osc1.nextSamplesRounded rnd Waveforms.square k).2 ∧
      st.2.numChannels = out.numChannels ∧
      ∀ c i : Int, st.2.data c i =
        if 0 ≤ c ∧ c < out.numChannels ∧ start ≤ i ∧ i < start + (k : Int) then
          rnd (out.data c i +
            rnd (rnd (Waveforms.square
              (v.osc1.nextSamplesRounded rnd Waveforms.square (i - start).toNat).2.phase
                * v.level) * amp))
        else out.data c i)
    n (fun s st =>
      ({ st.1 with osc1 := (st.1.osc1.nextPitchModRounded rnd Waveforms.square (pm s)).2 },
       forLoop st.2.numChannels (fun c o => o.addSampleRounded rnd c (start + s)
         (rnd (rnd ((st.1.osc1.nextPitchModRounded rnd Waveforms.square (pm s)).1 * st.1.level)
           * amp))) st.2))
    (v, out) ?_ ?_
  · have h5 := h.2.2.2 c i
    unfold sustainLoopRounded
    rw [h5]
    by_cases hc : 0 ≤ c ∧ c < out.numChannels ∧ start ≤ i ∧ i < start + n
    · rw [if_pos hc, if_pos]
      refine ⟨hc.1, hc.2.1, hc.2.2.1, ?_⟩
      have := hc.2.2.2
      omega
    · rw [if_neg hc, if_neg]
      rintro ⟨h1, h2, h3, h4⟩
      exact hc ⟨h1, h2, h3, by omega⟩
  · refine ⟨rfl, rfl, rfl, fun c i => ?_⟩
    rw [if_neg]
    rintro ⟨_, _, h3, h4⟩
    simp at h4
    omega
  · rintro k hk ⟨w, b⟩ ⟨h1, h2, h4, h5⟩
    simp only at h1 h2 h4 h5
    obtain ⟨a1, _, a3⟩ := AudioSampleBuffer.addSampleRounded_channels rnd b b.numChannels
      (start + k)
      (rnd (rnd ((w.osc1.nextPitchModRounded rnd Waveforms.square (pm k)).1 * w.level) * amp))
    have hw : rnd w.osc1.phaseDelta = w.osc1.phaseDelta := by
      rw [h2, Oscillator.nextSamplesRounded_phaseDelta]
      exact hpd
    have hstep : w.osc1.nextPitchModRounded rnd Waveforms.square (pm k)
        = w.osc1.nextRounded rnd Waveforms.square := by
      rw [hpm k (by omega) hk]
      exact Oscillator.nextPitchModRounded_one rnd Waveforms.square w.osc1 hw
    refine ⟨h1, ?_, a1.trans h4, fun c i => ?_⟩
    · simp only [hstep]
      rw [Oscillator.nextSamplesRounded_succ, h2]
    · simp only []
      rw [a3, h5, h4, hstep]
      simp only [Oscillator.nextRounded, h1, h2]
      by_cases e : i = start + (k : Int)
      · subst e
        by_cases hc : 0 ≤ c ∧ c < out.numChannels
        · rw [if_pos ⟨hc.1, hc.2, rfl⟩, if_neg (by omega), if_pos (by push_cast; omega)]
          simp
        · rw [if_neg (fun h => hc ⟨h.1, h.2.1⟩), if_neg (fun h => hc ⟨h.1, h.2.1⟩),
            if_neg (fun h => hc ⟨h.1, h.2.1⟩)]
      · rw [if_neg (fun h => e h.2.2)]
        by_cases hc : 0 ≤ c ∧ c < out.numChannels ∧ start ≤ i ∧ i < start + (k : Int)
        · rw [if_pos hc, if_pos]
          refine ⟨hc.1, hc.2.1, hc.2.2.1, ?_⟩
          push_cast
          omega
        · rw [if_neg hc, if_neg]
          rintro ⟨g1, g2, g3, g4⟩
          push_cast at g4
          exact hc ⟨g1, g2, g3, by omega⟩

/-- Sustaining with the LFO active, the carrier stage computed with rounding
is the sustain loop run on the voice left by the modulation renderer. -/
theorem renderCarrierRounded_sustaining (rnd : ℚ → ℚ) (x : Externals) (v : Voice)
    (out : AudioSampleBuffer) (start n : Int) (htail : v.tailOff = 0)
    (hlfo : v.lfo1.isActive = true) :
    v.renderCarrierRounded rnd x out start n =
      sustainLoopRounded rnd start v.params.vol
        (fun s => (v.renderModulationRounded rnd x n).pitchModBuffer.data 0 s) n
        (v.renderModulationRounded rnd x n) out := by
  obtain ⟨ph, pm, e⟩ := renderModulationRounded_eq rnd x v n
  have hl' : (v.renderModulationRounded rnd x n).lfo1.isActive = true := by
    rw [e]; simpa [Oscillator.isActive] using hlfo
  have ht' : ¬ (v.renderModulationRounded rnd x n).tailOff > 0 := by
    rw [e]; simp [htail]
  have hp : (v.renderModulationRounded rnd x n).params = v.params := by rw [e]
  simp only [renderCarrierRounded, hl', if_true, if_neg ht', hp]

end Voice

/-! ## The exact embedding as the embedding without rounding -/

namespace Voice

theorem releaseLoopRounded_id (start : Int) (amp : ℚ) (pm : Int → ℚ) (remaining : ℕ) :
    ∀ (s : Int) (v : Voice) (out : AudioSampleBuffer),
    releaseLoopRounded id start amp pm remaining s v out =
      releaseLoop start amp pm remaining s v out := by
  induction remaining with
  | zero => intro s v out; rfl
  | succ m ih =>
    intro s v out
    simp only [releaseLoopRounded, releaseLoop, ih]
    rfl

/-- Without rounding the carrier stage computed with rounding is the carrier
stage of the exact embedding. -/
theorem renderCarrierRounded_id (x : Externals) (v : Voice) (out : AudioSampleBuffer)
    (start n : Int) :
    v.renderCarrierRounded id x out start n = v.renderCarrier x out start n := by
  have hm : v.renderModulationRounded id x n = v.renderModulation x n := rfl
  have hs : ∀ amp pm w, sustainLoopRounded id start amp pm n w out
      = sustainLoop start amp pm n w out := fun _ _ _ => rfl
  simp only [renderCarrierRounded, renderCarrier, hm, hs, releaseLoopRounded_id]

theorem startNoteRounded_id (x : Externals) (v : Voice) (midiNoteNumber : Int) (velocity : ℚ) :
    v.startNoteRounded id x midiNoteNumber velocity = v.startNote x midiNoteNumber velocity :=
  rfl

end Voice

/-! ## The tuned voice in float32 -/

/-- The carrier of the tuned voice after its float32 note-on. -/
theorem tunedVoice_osc1 :
    tunedVoice.osc1 = { phase := 0, phaseDelta := (4392265 / 4194304 : ℚ) } := by
  have a1 : roundFloat32 (44100 : ℚ) = (44100 : ℚ) := by
    refine (roundFloat32_eq _ (15) (11289600) ?_ ?_ ?_ ?_).trans ?_
    · norm_num
    · norm_num [abs_of_pos]
    · norm_num [abs_of_pos]
    · exact roundHalfEven_of_abs_lt _ _ (by norm_num [abs_lt])
    · norm_num
  have a2 : roundFloat32 (7350 : ℚ) = (7350 : ℚ) := by
    refine (roundFloat32_eq _ (12) (15052800) ?_ ?_ ?_ ?_).trans ?_
    · norm_num
    · norm_num [abs_of_pos]
    · norm_num [abs_of_pos]
    · exact roundHalfEven_of_abs_lt _ _ (by norm_num [abs_lt])
    · norm_num
  have a3 : roundFloat32 ((7350 : ℚ) * 1) = (7350 : ℚ) := by
    refine (roundFloat32_eq _ (12) (15052800) ?_ ?_ ?_ ?_).trans ?_
    · norm_num
    · norm_num [abs_of_pos]
    · norm_num [abs_of_pos]
    · exact roundHalfEven_of_abs_lt _ _ (by norm_num [abs_lt])
    · norm_num
  have a4 : roundFloat32 ((7350 : ℚ) / (44100 : ℚ)) = (11184811 / 67108864 : ℚ) := by
    refine (roundFloat32_eq _ (-3) (11184811) ?_ ?_ ?_ ?_).trans ?_
    · norm_num
    · norm_num [abs_of_pos]
    · norm_num [abs_of_pos]
    · exact roundHalfEven_of_abs_lt _ _ (by norm_num [abs_lt])
    · norm_num
  have a5 : roundFloat32 ((11184811 / 67108864 : ℚ) * 2) = (11184811 / 33554432 : ℚ) := by
    refine (roundFloat32_eq _ (-2) (11184811) ?_ ?_ ?_ ?_).trans ?_
    · norm_num
    · norm_num [abs_of_pos]
    · norm_num [abs_of_pos]
    · exact roundHalfEven_of_abs_lt _ _ (by norm_num [abs_lt])
    · norm_num
  have a6 : roundFloat32 ((11184811 / 33554432 : ℚ) * (13176795 / 4194304 : ℚ))
      = (4392265 / 4194304 : ℚ) := by
    refine (roundFloat32_eq _ (0) (8784530) ?_ ?_ ?_ ?_).trans ?_
    · norm_num
    · norm_num [abs_of_pos]
    · norm_num [abs_of_pos]
    · exact roundHalfEven_of_abs_lt _ _ (by norm_num [abs_lt])
    · norm_num
  simp only [tunedVoice, Voice.startNoteRounded, Voice.new, exampleParams, exampleExternals,
    float_Pi]
  rw [a1, a2, a3, a4, a5, a6]

/-- The LFO of the tuned voice after its float32 note-on. -/
theorem tunedVoice_lfo1 :
    tunedVoice.lfo1 = { phase := 0, phaseDelta := (4895433 / 34359738368 : ℚ) } := by
  have a1 : roundFloat32 (44100 : ℚ) = (44100 : ℚ) := by
    refine (roundFloat32_eq _ (15) (11289600) ?_ ?_ ?_ ?_).trans ?_
    · norm_num
    · norm_num [abs_of_pos]
    · norm_num [abs_of_pos]
    · exact roundHalfEven_of_abs_lt _ _ (by norm_num [abs_lt])
    · norm_num
  have b2 : roundFloat32 (1 / (44100 : ℚ)) = (6233059 / 274877906944 : ℚ) := by
    refine (roundFloat32_eq _ (-16) (12466118) ?_ ?_ ?_ ?_).trans ?_
    · norm_num
    · norm_num [abs_of_pos]
    · norm_num [abs_of_pos]
    · exact roundHalfEven_of_abs_lt _ _ (by norm_num [abs_lt])
    · norm_num
  have b3 : roundFloat32 ((6233059 / 274877906944 : ℚ) * 2) = (6233059 / 137438953472 : ℚ) := by
    refine (roundFloat32_eq _ (-15) (12466118) ?_ ?_ ?_ ?_).trans ?_
    · norm_num
    · norm_num [abs_of_pos]
    · norm_num [abs_of_pos]
    · exact roundHalfEven_of_abs_lt _ _ (by norm_num [abs_lt])
    · norm_num
  have b4 : roundFloat32 ((6233059 / 137438953472 : ℚ) * (13176795 / 4194304 : ℚ))
      = (4895433 / 34359738368 : ℚ) := by
    refine (roundFloat32_eq _ (-13) (9790866) ?_ ?_ ?_ ?_).trans ?_
    · norm_num
    · norm_num [abs_of_pos]
    · norm_num [abs_of_pos]
    · exact roundHalfEven_of_abs_lt _ _ (by norm_num [abs_lt])
    · norm_num
  simp only [tunedVoice, Voice.startNoteRounded, Voice.new, exampleParams, exampleExternals,
    float_Pi]
  rw [a1, b2, b3, b4]

/-- The level of the tuned voice: the float32 value of `0.15f`. -/
theorem tunedVoice_level : tunedVoice.level = (5033165 / 33554432 : ℚ) := by
  have c1 : roundFloat32 (0.15 : ℚ) = (5033165 / 33554432 : ℚ) := by
    refine (roundFloat32_eq _ (-3) (10066330) ?_ ?_ ?_ ?_).trans ?_
    · norm_num
    · norm_num [abs_of_pos]
    · norm_num [abs_of_pos]
    · exact roundHalfEven_of_abs_lt _ _ (by norm_num [abs_lt])
    · norm_num
  have c2 : roundFloat32 (1 * (5033165 / 33554432 : ℚ)) = (5033165 / 33554432 : ℚ) := by
    refine (roundFloat32_eq _ (-3) (10066330) ?_ ?_ ?_ ?_).trans ?_
    · norm_num
    · norm_num [abs_of_pos]
    · norm_num [abs_of_pos]
    · exact roundHalfEven_of_abs_lt _ _ (by norm_num [abs_lt])
    · norm_num
  simp only [tunedVoice, Voice.startNoteRounded, Voice.new, exampleParams, exampleExternals]
  rw [c1, c2]

/-- The float32 phase of the tuned carrier after six `next()` calls: the sum
is rounded down twice, at the fifth and at the sixth call, and stays below
`2 * float_Pi`. -/
theorem tunedVoice_phase_six :
    (tunedVoice.osc1.nextSamplesRounded roundFloat32 Waveforms.square 6).2.phase
      = (6588397 / 1048576 : ℚ) := by
  have p0 : roundFloat32 ((0 : ℚ) + (4392265 / 4194304 : ℚ)) = (4392265 / 4194304 : ℚ) := by
    refine (roundFloat32_eq _ (0) (8784530) ?_ ?_ ?_ ?_).trans ?_
    · norm_num
    · norm_num [abs_of_pos]
    · norm_num [abs_of_pos]
    · exact roundHalfEven_of_abs_lt _ _ (by norm_num [abs_lt])
    · norm_num
  have f0 : fmod (4392265 / 4194304 : ℚ) (float_Pi * 2)
      = (4392265 / 4194304 : ℚ) :=
    fmod_of_lt (by norm_num) (by norm_num [float_Pi])
  have p1 : roundFloat32 ((4392265 / 4194304 : ℚ) + (4392265 / 4194304 : ℚ))
      = (4392265 / 2097152 : ℚ) := by
    refine (roundFloat32_eq _ (1) (8784530) ?_ ?_ ?_ ?_).trans ?_
    · norm_num
    · norm_num [abs_of_pos]
    · norm_num [abs_of_pos]
    · exact roundHalfEven_of_abs_lt _ _ (by norm_num [abs_lt])
    · norm_num
  have f1 : fmod (4392265 / 2097152 : ℚ) (float_Pi * 2)
      = (4392265 / 2097152 : ℚ) :=
    fmod_of_lt (by norm_num) (by norm_num [float_Pi])
  have p2 : roundFloat32 ((4392265 / 2097152 : ℚ) + (4392265 / 4194304 : ℚ))
      = (13176795 / 4194304 : ℚ) := by
    refine (roundFloat32_eq _ (1) (13176795) ?_ ?_ ?_ ?_).trans ?_
    · norm_num
    · norm_num [abs_of_pos]
    · norm_num [abs_of_pos]
    · exact roundHalfEven_of_abs_lt _ _ (by norm_num [abs_lt])
    · norm_num
  have f2 : fmod (13176795 / 4194304 : ℚ) (float_Pi * 2)
      = (13176795 / 4194304 : ℚ) :=
    fmod_of_lt (by norm_num) (by norm_num [float_Pi])
  have p3 : roundFloat32 ((13176795 / 4194304 : ℚ) + (4392265 / 4194304 : ℚ))
      = (4392265 / 1048576 : ℚ) := by
    refine (roundFloat32_eq _ (2) (8784530) ?_ ?_ ?_ ?_).trans ?_
    · norm_num
    · norm_num [abs_of_pos]
    · norm_num [abs_of_pos]
    · exact roundHalfEven_of_abs_lt _ _ (by norm_num [abs_lt])
    · norm_num
  have f3 : fmod (4392265 / 1048576 : ℚ) (float_Pi * 2)
      = (4392265 / 1048576 : ℚ) :=
    fmod_of_lt (by norm_num) (by norm_num [float_Pi])
  have p4 : roundFloat32 ((4392265 / 1048576 : ℚ) + (4392265 / 4194304 : ℚ))
      = (5490331 / 1048576 : ℚ) := by
    refine (roundFloat32_eq _ (2) (10980662) ?_ ?_ ?_ ?_).trans ?_
    · norm_num
    · norm_num [abs_of_pos]
    · norm_num [abs_of_pos]
    · rw [show ((4392265 / 1048576 : ℚ) + (4392265 / 4194304 : ℚ))
            / (2 : ℚ) ^ ((2 : Int) - 23)
          = ((10980662 : Int) : ℚ) + 1 / 2 by norm_num, roundHalfEven_tie]
      norm_num
    · norm_num
  have f4 : fmod (5490331 / 1048576 : ℚ) (float_Pi * 2)
      = (5490331 / 1048576 : ℚ) :=
    fmod_of_lt (by norm_num) (by norm_num [float_Pi])
  have p5 : roundFloat32 ((5490331 / 1048576 : ℚ) + (4392265 / 4194304 : ℚ))
      = (6588397 / 1048576 : ℚ) := by
    refine (roundFloat32_eq _ (2) (13176794) ?_ ?_ ?_ ?_).trans ?_
    · norm_num
    · norm_num [abs_of_pos]
    · norm_num [abs_of_pos]
    · rw [show ((5490331 / 1048576 : ℚ) + (4392265 / 4194304 : ℚ))
            / (2 : ℚ) ^ ((2 : Int) - 23)
          = ((13176794 : Int) : ℚ) + 1 / 2 by norm_num, roundHalfEven_tie]
      norm_num
    · norm_num
  have f5 : fmod (6588397 / 1048576 : ℚ) (float_Pi * 2)
      = (6588397 / 1048576 : ℚ) :=
    fmod_of_lt (by norm_num) (by norm_num [float_Pi])
  rw [tunedVoice_osc1]
  simp only [Oscillator.nextSamplesRounded, Oscillator.nextRounded]
  rw [p0, f0, p1, f1, p2, f2,
    p3, f3, p4, f4, p5, f5]

/-- The negated level passes the float32 products and the sum unchanged. -/
theorem neg_level_rounds :
    roundFloat32 (0 + roundFloat32 (roundFloat32 (-1 * (5033165 / 33554432 : ℚ)) * 1))
      = (-5033165 / 33554432 : ℚ) := by
  have n1 : roundFloat32 (-1 * (5033165 / 33554432 : ℚ)) = (-5033165 / 33554432 : ℚ) := by
    refine (roundFloat32_eq _ (-3) (-10066330) ?_ ?_ ?_ ?_).trans ?_
    · norm_num
    · norm_num [abs_of_neg]
    · norm_num [abs_of_neg]
    · exact roundHalfEven_of_abs_lt _ _ (by norm_num [abs_lt])
    · norm_num
  have n2 : roundFloat32 ((-5033165 / 33554432 : ℚ) * 1) = (-5033165 / 33554432 : ℚ) := by
    refine (roundFloat32_eq _ (-3) (-10066330) ?_ ?_ ?_ ?_).trans ?_
    · norm_num
    · norm_num [abs_of_neg]
    · norm_num [abs_of_neg]
    · exact roundHalfEven_of_abs_lt _ _ (by norm_num [abs_lt])
    · norm_num
  have n3 : roundFloat32 (0 + (-5033165 / 33554432 : ℚ)) = (-5033165 / 33554432 : ℚ) := by
    refine (roundFloat32_eq _ (-3) (-10066330) ?_ ?_ ?_ ?_).trans ?_
    · norm_num
    · norm_num [abs_of_neg]
    · norm_num [abs_of_neg]
    · exact roundHalfEven_of_abs_lt _ _ (by norm_num [abs_lt])
    · norm_num
  rw [n1, n2, n3]

/-- The phase increment of the tuned carrier is a float32 value. -/
theorem roundFloat32_eq_self_of_osc1 :
    roundFloat32 (4392265 / 4194304 : ℚ) = (4392265 / 4194304 : ℚ) := by
  have hpdv : roundFloat32 (4392265 / 4194304 : ℚ) = (4392265 / 4194304 : ℚ) := by
    refine (roundFloat32_eq _ (0) (8784530) ?_ ?_ ?_ ?_).trans ?_
    · norm_num
    · norm_num [abs_of_pos]
    · norm_num [abs_of_pos]
    · exact roundHalfEven_of_abs_lt _ _ (by norm_num [abs_lt])
    · norm_num
  exact hpdv

namespace Voice

/-- The carrier stage computed with rounding `rnd`, sustaining with LFO depth
0: every sample of the output buffer after the stage. The rounding keeps 0
and the phase increment of the carrier, as float32 rounding of a float32
value and the identity do. -/
theorem renderCarrierRounded_sustain (rnd : ℚ → ℚ) (x : Externals) (v : Voice)
    (out : AudioSampleBuffer) (start n : Int) (hrnd : rnd 0 = 0)
    (hpd : rnd v.osc1.phaseDelta = v.osc1.phaseDelta)
    (hsemi : x.fromSemi 0 = 1) (hdepth : v.params.osc1lfo1depth = 0)
    (htail : v.tailOff = 0) (hlfo : v.lfo1.isActive = true) (c i : Int) :
    (v.renderCarrierRounded rnd x out start n).2.data c i =
      if 0 ≤ c ∧ c < out.numChannels ∧ start ≤ i ∧ i < start + n then
        rnd (out.data c i +
          rnd (rnd (Waveforms.square
            (v.osc1.nextSamplesRounded rnd Waveforms.square (i - start).toNat).2.phase
              * v.level) * v.params.vol))
      else out.data c i := by
  obtain ⟨ph, pm, e⟩ := renderModulationRounded_eq rnd x v n
  have hpm : ∀ s : Int, 0 ≤ s → s < n →
      (v.renderModulationRounded rnd x n).pitchModBuffer.data 0 s = 1 := fun s h0 h1 => by
    rw [renderModulationRounded_depth_zero rnd x v n hrnd hdepth s h0 h1, hsemi]
  have hpd' : rnd (v.renderModulationRounded rnd x n).osc1.phaseDelta
      = (v.renderModulationRounded rnd x n).osc1.phaseDelta := by
    rw [e]; exact hpd
  rw [renderCarrierRounded_sustaining rnd x v out start n htail hlfo,
    sustainLoopRounded_unmodulated rnd start v.params.vol _ n _ out hpm hpd' c i, e]

end Voice

/-! ## The delay stage of `renderNextBlock` (C1, C2) -/

/-- C1: on a fresh voice and a two-sample block of ones, the value the claim
names, `0.5 * h + 0.5 * feedbackGain * D`, is `501/2000` at both positions,
but after `renderNextBlock` position 0 holds `0` (it is cleared again while
sample 1 is mixed) and position 1 holds `1501/2000` (the mix is added onto the
halved sample, which was never cleared). All samples involved lie inside
their buffers. -/
theorem renderNextBlock_mix_accumulates :
    (onesBuffer.holds 0 (0 + 0) ∧ onesBuffer.holds 0 (0 + 1) ∧
      delayedOnes.delayBuffer.holds 0 (0 + 0 + delayedOnes.delayOffsetInSamples) ∧
      delayedOnes.delayBuffer.holds 0 (0 + 1 + delayedOnes.delayOffsetInSamples)) ∧
    (0.5 * (carriedOnes.2.data 0 (0 + 0) * 0.5) +
        0.5 * delayedOnes.delayFeedbackValue *
          delayedOnes.delayBuffer.data 0 (0 + 0 + delayedOnes.delayOffsetInSamples)
        = 501 / 2000 ∧
      (freshVoice.renderNextBlock exampleExternals onesBuffer 0 2).2.data 0 (0 + 0) = 0) ∧
    (0.5 * (carriedOnes.2.data 0 (0 + 1) * 0.5) +
        0.5 * delayedOnes.delayFeedbackValue *
          delayedOnes.delayBuffer.data 0 (0 + 1 + delayedOnes.delayOffsetInSamples)
        = 501 / 2000 ∧
      (freshVoice.renderNextBlock exampleExternals onesBuffer 0 2).2.data 0 (0 + 1)
        = 1501 / 2000) := by
  simp [carriedOnes, delayedOnes, freshVoice, exampleParams, exampleExternals, onesBuffer,
    Voice.renderNextBlock, Voice.renderCarrier, Voice.new, Voice.renderModulation, forLoop,
    List.range, List.range.loop, Oscillator.isActive, Oscillator.new, Oscillator.next,
    Voice.copyRenderedBlockToDelayBuffer, Voice.mixDelay, AudioSampleBuffer.applyGain,
    AudioSampleBuffer.clear, AudioSampleBuffer.addSample, AudioSampleBuffer.getSample,
    AudioSampleBuffer.setSample, AudioSampleBuffer.zeros, AudioSampleBuffer.holds,
    Voice.getDelayIndex, truncToInt]
  norm_num

/-- C2: on a fresh voice, rendering the one-sample range `[0, 1)` of a block
of ones changes the sample at position 1, which lies in the buffer and
outside the range, from `1` to `1/2`. -/
theorem renderNextBlock_rescales_outside_range :
    ¬ ((0 : Int) ≤ 1 ∧ (1 : Int) < 0 + 1) ∧ onesBuffer.holds 0 1 ∧
    onesBuffer.data 0 1 = 1 ∧
    (freshVoice.renderNextBlock exampleExternals onesBuffer 0 1).2.data 0 1 = 1 / 2 := by
  simp [freshVoice, exampleParams, exampleExternals, onesBuffer, Voice.renderNextBlock,
    Voice.renderCarrier, Voice.new, Voice.renderModulation, forLoop, List.range,
    List.range.loop, Oscillator.isActive, Oscillator.new, Oscillator.next,
    Voice.copyRenderedBlockToDelayBuffer, Voice.mixDelay, AudioSampleBuffer.applyGain,
    AudioSampleBuffer.clear, AudioSampleBuffer.addSample, AudioSampleBuffer.getSample,
    AudioSampleBuffer.setSample, AudioSampleBuffer.zeros, AudioSampleBuffer.holds,
    Voice.getDelayIndex, truncToInt]
  norm_num

/-- What the code does outside the rendered range: `renderNextBlock`
multiplies by `0.5` every sample of the output buffer, on every channel,
whose index lies outside `[startSample, startSample + numSamples)`. -/
theorem renderNextBlock_halves_outside_range (x : Externals) (v : Voice)
    (out : AudioSampleBuffer) (start n c i : Int)
    (hin : out.holds c i) (hout : ¬ (start ≤ i ∧ i < start + n)) :
    (v.renderNextBlock x out start n).2.data c i = out.data c i * 0.5 := by
  obtain ⟨a1, a2, a3⟩ := Voice.renderCarrier_frame x v out start n
  obtain ⟨_, _, b3⟩ := Voice.mixDelay_frame
    ((v.renderCarrier x out start n).1.copyRenderedBlockToDelayBuffer
      (v.renderCarrier x out start n).2)
    ((v.renderCarrier x out start n).2.applyGain 0.5) start n
  simp only [Voice.renderNextBlock]
  rw [b3 c i hout]
  simp only [AudioSampleBuffer.applyGain, a1, a2]
  have hin' : 0 ≤ c ∧ c < out.numChannels ∧ 0 ≤ i ∧ i < out.numSamples := hin
  rw [if_pos hin', a3 c i hout]

/-! ## Silent blocks (C3) -/

/-- C3 as stated fails: a fresh voice (LFO inactive) rendering one sample
changes a buffer of ones (the mix halves the dry sample); and the voice left
by rendering the ones, still with an inactive LFO but with the ones in its
delay line, changes an all-zero buffer (the delay tail is mixed in). -/
theorem renderBlocks_changes_nonzero_buffer :
    (freshVoice.lfo1.isActive = false ∧
      (Voice.renderBlocks exampleExternals [(0, 1)] freshVoice onesBuffer).2 ≠ onesBuffer) ∧
    ((freshVoice.renderNextBlock exampleExternals onesBuffer 0 2).1.lfo1.isActive = false ∧
      (Voice.renderBlocks exampleExternals [(0, 1)]
        (freshVoice.renderNextBlock exampleExternals onesBuffer 0 2).1
        (AudioSampleBuffer.zeros 1 2)).2 ≠ AudioSampleBuffer.zeros 1 2) := by
  refine ⟨⟨?_, fun h => ?_⟩, ⟨?_, fun h => ?_⟩⟩
  · simp [freshVoice, Voice.new, Oscillator.new, Oscillator.isActive]
  · have h0 := congrArg (fun b : AudioSampleBuffer => b.data 0 0) h
    simp [Voice.renderBlocks, freshVoice, exampleParams, exampleExternals, onesBuffer,
      Voice.renderNextBlock, Voice.renderCarrier, Voice.new, Voice.renderModulation, forLoop,
      List.range, List.range.loop, Oscillator.isActive, Oscillator.new, Oscillator.next,
      Voice.copyRenderedBlockToDelayBuffer, Voice.mixDelay, AudioSampleBuffer.applyGain,
      AudioSampleBuffer.clear, AudioSampleBuffer.addSample, AudioSampleBuffer.getSample,
      AudioSampleBuffer.setSample, AudioSampleBuffer.zeros, AudioSampleBuffer.holds,
      Voice.getDelayIndex, truncToInt] at h0
    norm_num at h0
  · exact Voice.renderNextBlock_keeps_inactive exampleExternals freshVoice onesBuffer 0 2
      (by simp [freshVoice, Voice.new, Oscillator.new, Oscillator.isActive])
  · have h0 := congrArg (fun b : AudioSampleBuffer => b.data 0 0) h
    simp [Voice.renderBlocks, freshVoice, exampleParams, exampleExternals, onesBuffer,
      Voice.renderNextBlock, Voice.renderCarrier, Voice.new, Voice.renderModulation, forLoop,
      List.range, List.range.loop, Oscillator.isActive, Oscillator.new, Oscillator.next,
      Voice.copyRenderedBlockToDelayBuffer, Voice.mixDelay, AudioSampleBuffer.applyGain,
      AudioSampleBuffer.clear, AudioSampleBuffer.addSample, AudioSampleBuffer.getSample,
      AudioSampleBuffer.setSample, AudioSampleBuffer.zeros, AudioSampleBuffer.holds,
      Voice.getDelayIndex, truncToInt] at h0
    norm_num at h0

/-- One silent block: a voice with an inactive LFO and a silent delay line
leaves a silent buffer as it was, and stays such a voice. -/
theorem renderNextBlock_silent (x : Externals) (v : Voice) (out : AudioSampleBuffer)
    (start n : Int) (hl : v.lfo1.isActive = false)
    (hv : ∀ c i, v.delayBuffer.data c i = 0) (ho : ∀ c i, out.data c i = 0) :
    (v.renderNextBlock x out start n).2 = out ∧
    (v.renderNextBlock x out start n).1.lfo1.isActive = false ∧
    ∀ c i, (v.renderNextBlock x out start n).1.delayBuffer.data c i = 0 := by
  obtain ⟨ph, pm, e⟩ := Voice.renderModulation_eq x v n
  have hv' : ∀ c i, (v.renderModulation x n).delayBuffer.data c i = 0 := by
    rw [e]; exact hv
  have hl' : (v.renderModulation x n).lfo1.isActive = false := by
    rw [e]; simpa [Oscillator.isActive] using hl
  have hg : out.applyGain 0.5 = out := by
    refine AudioSampleBuffer.ext_data rfl rfl (fun c i => ?_)
    simp [AudioSampleBuffer.applyGain, ho]
  simp only [Voice.renderNextBlock, Voice.renderCarrier_inactive x v out start n hl,
    Voice.copyRenderedBlockToDelayBuffer_silent _ out hv' ho, hg]
  exact ⟨Voice.mixDelay_silent _ out start n hv' ho, hl', hv'⟩

/-- C3, amended: a voice with no active note (LFO inactive) whose delay line
is silent leaves an all-zero output buffer equal to what it was, over any
number of `renderNextBlock` calls. -/
theorem renderBlocks_silent (x : Externals) (calls : List (Int × Int)) (v : Voice)
    (out : AudioSampleBuffer) (hl : v.lfo1.isActive = false)
    (hv : ∀ c i, v.delayBuffer.data c i = 0) (ho : ∀ c i, out.data c i = 0) :
    (Voice.renderBlocks x calls v out).2 = out := by
  induction calls generalizing v with
  | nil => rfl
  | cons a rest ih =>
    obtain ⟨s, n⟩ := a
    obtain ⟨h1, h2, h3⟩ := renderNextBlock_silent x v out s n hl hv ho
    simp only [Voice.renderBlocks]
    rw [h1]
    exact ih _ h2 h3

/-- Witness: a fresh voice rendering three blocks
into a silent stereo buffer. -/
theorem renderBlocks_silent_witness :
    (Voice.renderBlocks exampleExternals [(0, 8), (0, 8), (4, 4)] freshVoice
      (AudioSampleBuffer.zeros 2 8)).2 = AudioSampleBuffer.zeros 2 8 :=
  renderBlocks_silent exampleExternals [(0, 8), (0, 8), (4, 4)] freshVoice
    (AudioSampleBuffer.zeros 2 8)
    (by simp [freshVoice, Voice.new, Oscillator.new, Oscillator.isActive])
    (fun c i => by simp [freshVoice, Voice.new, AudioSampleBuffer.clear, AudioSampleBuffer.zeros])
    (fun _ _ => rfl)

/-! ## The sustaining carrier (C4) -/

/-- C4 as stated fails in float32. The voice tuned to 7350 Hz meets the
conditions of the claim after its float32 note-on, with phase increment
`4392265 / 4194304` and level `5033165 / 33554432`. Rendering 7 samples into
a zero buffer, the float32 carrier stage leaves `-level` at sample 6, because
the rounded phase sums reach `6588397 / 1048576`, just below `2 * float_Pi`,
and do not wrap. The closed form of the claim gives `+level` there: six times
the phase increment is `2 * float_Pi` exactly, in exact arithmetic and in
float32 alike, so its remainder is 0 and the square is `+1`. -/
theorem sustain_closed_form_fails_float32 :
    (tunedVoice.tailOff = 0 ∧ tunedVoice.lfo1.isActive = true ∧
      tunedVoice.params.osc1lfo1depth = 0 ∧ exampleExternals.fromSemi 0 = 1 ∧
      tunedVoice.osc1.phase = 0) ∧
    (tunedVoice.osc1.phaseDelta = 4392265 / 4194304 ∧
      tunedVoice.level = 5033165 / 33554432 ∧ tunedVoice.params.vol = 1) ∧
    (AudioSampleBuffer.zeros 1 8).data 0 (0 + 6) = 0 ∧
    (tunedVoice.renderCarrierRounded roundFloat32 exampleExternals
      (AudioSampleBuffer.zeros 1 8) 0 7).2.data 0 (0 + 6) = -(5033165 / 33554432) ∧
    Waveforms.square (fmod (6 * tunedVoice.osc1.phaseDelta) (float_Pi * 2))
      * tunedVoice.level * tunedVoice.params.vol = 5033165 / 33554432 ∧
    Waveforms.square (fmod (roundFloat32 (6 * tunedVoice.osc1.phaseDelta)) (float_Pi * 2))
      = 1 := by
  have hpdv : roundFloat32 (4392265 / 4194304 : ℚ) = (4392265 / 4194304 : ℚ) := by
    refine (roundFloat32_eq _ (0) (8784530) ?_ ?_ ?_ ?_).trans ?_
    · norm_num
    · norm_num [abs_of_pos]
    · norm_num [abs_of_pos]
    · exact roundHalfEven_of_abs_lt _ _ (by norm_num [abs_lt])
    · norm_num
  have h6 : roundFloat32 (6 * (4392265 / 4194304 : ℚ)) = (13176795 / 2097152 : ℚ) := by
    refine (roundFloat32_eq _ (2) (13176795) ?_ ?_ ?_ ?_).trans ?_
    · norm_num
    · norm_num [abs_of_pos]
    · norm_num [abs_of_pos]
    · exact roundHalfEven_of_abs_lt _ _ (by norm_num [abs_lt])
    · norm_num
  have htail : tunedVoice.tailOff = 0 := rfl
  have hdepth : tunedVoice.params.osc1lfo1depth = 0 := rfl
  have hvol : tunedVoice.params.vol = 1 := rfl
  have hlfo : tunedVoice.lfo1.isActive = true := by
    rw [tunedVoice_lfo1]
    norm_num [Oscillator.isActive]
  have hpd : roundFloat32 tunedVoice.osc1.phaseDelta = tunedVoice.osc1.phaseDelta := by
    rw [tunedVoice_osc1]
    exact hpdv
  have hzero : fmod ((13176795 / 2097152 : ℚ)) (float_Pi * 2) = 0 := by
    norm_num [fmod, truncToInt, float_Pi]
  refine ⟨⟨htail, hlfo, hdepth, rfl, ?_⟩, ⟨?_, tunedVoice_level, hvol⟩, rfl, ?_, ?_, ?_⟩
  · rw [tunedVoice_osc1]
  · rw [tunedVoice_osc1]
  · rw [Voice.renderCarrierRounded_sustain roundFloat32 exampleExternals tunedVoice
        (AudioSampleBuffer.zeros 1 8) 0 7 roundFloat32_zero hpd rfl hdepth htail hlfo 0 (0 + 6),
      if_pos (by norm_num [AudioSampleBuffer.zeros])]
    have e6 : ((0 + 6 - 0 : Int)).toNat = 6 := by decide
    rw [e6, tunedVoice_phase_six, tunedVoice_level, hvol]
    have hsq : Waveforms.square (6588397 / 1048576 : ℚ) = -1 := by
      norm_num [Waveforms.square, float_Pi]
    rw [hsq]
    have hz : (AudioSampleBuffer.zeros 1 8).data 0 (0 + 6) = 0 := rfl
    rw [hz, neg_level_rounds]
    norm_num
  · rw [tunedVoice_osc1, tunedVoice_level, hvol]
    have e : (6 : ℚ) * (4392265 / 4194304 : ℚ) = (13176795 / 2097152 : ℚ) := by norm_num
    simp only []
    rw [e, hzero]
    norm_num [Waveforms.square, float_Pi]
  · rw [tunedVoice_osc1]
    simp only []
    rw [h6, hzero]
    norm_num [Waveforms.square, float_Pi]

/-- C4, amended: sustaining (`tailOff = 0`, LFO active) with LFO depth 0,
where `Param::fromSemi(0) = 1`, the carrier stage of `renderNextBlock` adds
to every channel at position `startSample + s`, for `0 ≤ s < numSamples`, the
value `square (phase s) * level * outputLevel`, where `phase s` is the phase
of the carrier after `s` calls of the unmodulated `next()`: the unmodulated
square-wave sequence of the oscillator, with no modulation drift. The float
operations are rounded by `rnd`, which keeps 0 and the phase increment of
the carrier; float32 rounding of a float32 increment and exact arithmetic
are both of this kind. -/
theorem renderCarrier_sustain_unmodulated_sequence (rnd : ℚ → ℚ) (x : Externals) (v : Voice)
    (out : AudioSampleBuffer) (start n : Int) (hrnd : rnd 0 = 0)
    (hpd : rnd v.osc1.phaseDelta = v.osc1.phaseDelta)
    (hsemi : x.fromSemi 0 = 1) (hdepth : v.params.osc1lfo1depth = 0)
    (htail : v.tailOff = 0) (hlfo : v.lfo1.isActive = true)
    (c s : Int) (hc0 : 0 ≤ c) (hc : c < out.numChannels) (hs0 : 0 ≤ s) (hs : s < n) :
    (v.renderCarrierRounded rnd x out start n).2.data c (start + s) =
      rnd (out.data c (start + s) +
        rnd (rnd (Waveforms.square
          (v.osc1.nextSamplesRounded rnd Waveforms.square s.toNat).2.phase * v.level)
          * v.params.vol)) := by
  have e : (start + s - start).toNat = s.toNat := by
    congr 1
    ring
  rw [Voice.renderCarrierRounded_sustain rnd x v out start n hrnd hpd hsemi hdepth htail hlfo
      c (start + s),
    if_pos ⟨hc0, hc, by omega, by omega⟩, e]

/-- Witness: sample 2 of the first float32 block of the voice tuned to 7350
Hz. -/
theorem renderCarrier_sustain_unmodulated_sequence_witness :
    (tunedVoice.renderCarrierRounded roundFloat32 exampleExternals
      (AudioSampleBuffer.zeros 1 8) 0 7).2.data 0 (0 + 2) =
      roundFloat32 ((AudioSampleBuffer.zeros 1 8).data 0 (0 + 2) +
        roundFloat32 (roundFloat32 (Waveforms.square
          (tunedVoice.osc1.nextSamplesRounded roundFloat32 Waveforms.square
            (2 : Int).toNat).2.phase * tunedVoice.level)
          * tunedVoice.params.vol)) :=
  renderCarrier_sustain_unmodulated_sequence roundFloat32 exampleExternals tunedVoice
    (AudioSampleBuffer.zeros 1 8) 0 7 roundFloat32_zero
    (by
      rw [tunedVoice_osc1]
      exact roundFloat32_eq_self_of_osc1)
    rfl rfl rfl
    (by
      rw [tunedVoice_lfo1]
      norm_num [Oscillator.isActive])
    0 2 (by decide) (by norm_num [AudioSampleBuffer.zeros]) (by decide) (by decide)

/-- The closed form in exact arithmetic: without rounding of the float
operations, sustaining (`tailOff = 0`, LFO active) with LFO depth 0, where
`Param::fromSemi(0) = 1`, and the carrier at phase 0, the carrier stage adds
at position `startSample + s` the value
`square (fmod (s * phaseDelta) (2 * float_Pi)) * level * outputLevel`. The
float32 code departs from this closed form where a rounded phase sum falls
on the other side of `float_Pi` or of the wrap. -/
theorem renderCarrier_sustain_unmodulated (x : Externals) (v : Voice)
    (out : AudioSampleBuffer) (start n : Int)
    (hsemi : x.fromSemi 0 = 1) (hdepth : v.params.osc1lfo1depth = 0)
    (htail : v.tailOff = 0) (hlfo : v.lfo1.isActive = true) (hphase : v.osc1.phase = 0)
    (c s : Int) (hc0 : 0 ≤ c) (hc : c < out.numChannels) (hs0 : 0 ≤ s) (hs : s < n) :
    (v.renderCarrier x out start n).2.data c (start + s) =
      out.data c (start + s) +
        Waveforms.square (fmod ((s : ℚ) * v.osc1.phaseDelta) (float_Pi * 2))
          * v.level * v.params.vol := by
  obtain ⟨ph, pm, e⟩ := Voice.renderModulation_eq x v n
  have hpm : ∀ s : Int, 0 ≤ s → s < n →
      (v.renderModulation x n).pitchModBuffer.data 0 s = 1 := fun s h0 h1 => by
    rw [Voice.renderModulation_depth_zero x v n hdepth s h0 h1, hsemi]
  have hl' : (v.renderModulation x n).lfo1.isActive = true := by
    rw [e]; simpa [Oscillator.isActive] using hlfo
  have ht' : ¬ (v.renderModulation x n).tailOff > 0 := by
    rw [e]; simp [htail]
  have hp' : (v.renderModulation x n).osc1.phase = 0 := by
    rw [e]; exact hphase
  have key := Voice.sustainLoop_unmodulated start (v.renderModulation x n).params.vol
    (fun s => (v.renderModulation x n).pitchModBuffer.data 0 s) n (v.renderModulation x n)
    out hpm hp' c (start + s)
  simp only [Voice.renderCarrier, hl', if_true, if_neg ht']
  rw [key, if_pos ⟨hc0, hc, by omega, by omega⟩, e]
  simp

/-! ## Note-on (C5) -/

/-- C5 as stated fails: with the LFO rate parameter at `0`, a note-on with
velocity `1` leaves the LFO inactive. -/
theorem startNote_lfo_inactive_at_zero_rate :
    (0 : ℚ) < 1 ∧
    ((Voice.new { exampleParams with lfo1freq := 0 } 8).startNote
      exampleExternals 69 1).lfo1.isActive = false := by
  simp [Voice.startNote, Voice.new, Oscillator.isActive, exampleParams]

/-- C5, amended: after `startNote` the level is `0.15 * velocity`, and both
oscillators are active provided the sample rate, the LFO rate parameter, the
note frequency and the fine-tune ratio are positive. -/
theorem startNote_active (x : Externals) (v : Voice) (midiNoteNumber : Int) (velocity : ℚ)
    (hrate : 0 < v.currentSampleRate) (hlfo : 0 < v.params.lfo1freq)
    (hfreq : 0 < x.getMidiNoteInHertz midiNoteNumber v.params.freq)
    (hfine : 0 < x.fromCent v.params.osc1fine) :
    (v.startNote x midiNoteNumber velocity).level = 0.15 * velocity ∧
    (v.startNote x midiNoteNumber velocity).osc1.isActive = true ∧
    (v.startNote x midiNoteNumber velocity).lfo1.isActive = true := by
  have hpi : (0 : ℚ) < float_Pi := by norm_num [float_Pi]
  refine ⟨?_, ?_, ?_⟩
  · simp only [Voice.startNote]
    ring
  · simp only [Voice.startNote, Oscillator.isActive, decide_eq_true_eq, gt_iff_lt]
    positivity
  · simp only [Voice.startNote, Oscillator.isActive, decide_eq_true_eq, gt_iff_lt]
    positivity

/-- Witness: note 69 at velocity 1 on a fresh voice. -/
theorem startNote_active_witness :
    (freshVoice.startNote exampleExternals 69 1).level = 0.15 * 1 ∧
    (freshVoice.startNote exampleExternals 69 1).osc1.isActive = true ∧
    (freshVoice.startNote exampleExternals 69 1).lfo1.isActive = true :=
  startNote_active exampleExternals freshVoice 69 1
    (by norm_num [freshVoice, Voice.new])
    (by norm_num [freshVoice, Voice.new, exampleParams])
    (by norm_num [freshVoice, Voice.new, exampleParams, exampleExternals])
    (by norm_num [exampleExternals])

/-! ## Release (C6) -/

/-- C6: for a decay factor in `(0, 1)` and a releasing voice (`tailOff > 0`,
LFO active) there is a first sample `K` at which `tailOff` is at most
`0.005`. A block of `k ≤ K` samples leaves `tailOff` at its start value
times the decay factor to the `k`, above the floor, with the LFO active and
the note kept, and one more sample makes it strictly smaller. A block longer
than `K` samples stops at sample `K`: `tailOff` is at most `0.005`, the voice
is idle and its LFO inactive, the carrier stage leaves the positions after
sample `K` as they were, and after any later render and note-off calls the
carrier stage of a render call leaves its output buffer as it was. -/
theorem release_decays_to_idle (x : Externals) (v : Voice) (out : AudioSampleBuffer)
    (start : Int) (hd0 : 0 < v.params.decayFac) (hd1 : v.params.decayFac < 1)
    (ht : 0 < v.tailOff) (hl : v.lfo1.isActive = true) :
    ∃ K : ℕ,
      (∀ k : ℕ, k ≤ K →
        (v.renderNextBlock x out start (k : Int)).1.tailOff
          = v.tailOff * v.params.decayFac ^ k ∧
        (0 < k → 0.005 < (v.renderNextBlock x out start (k : Int)).1.tailOff) ∧
        (v.renderNextBlock x out start (k : Int)).1.lfo1.isActive = true ∧
        (v.renderNextBlock x out start (k : Int)).1.currentlyPlayingNote
          = v.currentlyPlayingNote ∧
        (v.renderNextBlock x out start ((k + 1 : ℕ) : Int)).1.tailOff
          < (v.renderNextBlock x out start (k : Int)).1.tailOff) ∧
      (∀ n : Int, (K : Int) < n →
        (v.renderNextBlock x out start n).1.tailOff
          = v.tailOff * v.params.decayFac ^ (K + 1) ∧
        (v.renderNextBlock x out start n).1.tailOff ≤ 0.005 ∧
        (v.renderNextBlock x out start n).1.isVoiceActive = false ∧
        (v.renderNextBlock x out start n).1.lfo1.isActive = false ∧
        (∀ c s : Int, (K : Int) < s →
          (v.renderCarrier x out start n).2.data c (start + s) = out.data c (start + s)) ∧
        (∀ (calls : List Voice.Call) (out' : AudioSampleBuffer) (start' n' : Int),
          (((v.renderNextBlock x out start n).1.afterCalls x calls).renderCarrier x
            out' start' n').2 = out')) := by
  obtain ⟨K, hK, hfloor⟩ := Voice.exists_floor_crossing v.tailOff v.params.decayFac ht hd0 hd1
  have hafter : ∀ n : Int, (K : Int) < n →
      (v.renderNextBlock x out start n).1.tailOff
          = v.tailOff * v.params.decayFac ^ (K + 1) ∧
      (v.renderNextBlock x out start n).1.isVoiceActive = false ∧
      (v.renderNextBlock x out start n).1.lfo1.isActive = false := by
    intro n hn
    obtain ⟨⟨o, pmb, dl, e⟩, _⟩ :=
      Voice.renderNextBlock_release_floor x v out start n K ht hl hK hfloor hn
    rw [e]
    simp [Voice.isVoiceActive, Oscillator.isActive]
  refine ⟨K, fun k hk => ?_, fun n hn => ?_⟩
  · obtain ⟨o, ph, pmb, dl, e⟩ := Voice.renderNextBlock_release_above x v out start k ht hl
      (fun j h1 h2 => hK j h1 (le_trans h2 hk))
    have hpow : 0 < v.params.decayFac ^ k := pow_pos hd0 k
    have hdec : v.tailOff * v.params.decayFac ^ (k + 1) < v.tailOff * v.params.decayFac ^ k := by
      rw [pow_succ]
      have h1 : 0 < v.tailOff * v.params.decayFac ^ k := mul_pos ht hpow
      nlinarith
    have hnext : (v.renderNextBlock x out start ((k + 1 : ℕ) : Int)).1.tailOff
        = v.tailOff * v.params.decayFac ^ (k + 1) := by
      rcases Nat.lt_or_ge k K with h | h
      · obtain ⟨o', ph', pmb', dl', e'⟩ := Voice.renderNextBlock_release_above x v out start
          (k + 1) ht hl (fun j h1 h2 => hK j h1 (by omega))
        rw [e']
      · have hkK : k = K := le_antisymm hk h
        subst hkK
        exact (hafter _ (by push_cast; omega)).1
    rw [hnext, e]
    refine ⟨rfl, fun h0 => hK k h0 hk, ?_, rfl, hdec⟩
    simpa [Oscillator.isActive] using hl
  · obtain ⟨h1, h2, h3⟩ := hafter n hn
    obtain ⟨_, hframe⟩ :=
      Voice.renderNextBlock_release_floor x v out start n K ht hl hK hfloor hn
    refine ⟨h1, h1 ▸ hfloor, h2, h3, fun c s hs => hframe c (start + s) ?_,
      fun calls out' start' n' => ?_⟩
    · rintro ⟨_, g⟩
      omega
    · rw [Voice.renderCarrier_inactive x _ out' start' n'
        (Voice.afterCalls_keeps_inactive x calls _ h3)]

/-- Witness: the voice released right after note
69 was started, with decay factor 0.5, is idle after any long enough block. -/
theorem release_decays_to_idle_witness :
    ∃ K : ℕ, ∀ n : Int, (K : Int) < n →
      ((((freshVoice.startNote exampleExternals 69 1).stopNote 0 true).renderNextBlock
        exampleExternals onesBuffer 0 n).1.isVoiceActive = false) :=
  (release_decays_to_idle exampleExternals
    ((freshVoice.startNote exampleExternals 69 1).stopNote 0 true) onesBuffer 0
    (by norm_num [Voice.stopNote, Voice.startNote, freshVoice, Voice.new, exampleParams])
    (by norm_num [Voice.stopNote, Voice.startNote, freshVoice, Voice.new, exampleParams])
    (by norm_num [Voice.stopNote, Voice.startNote])
    (by norm_num [Voice.stopNote, Voice.startNote, freshVoice, Voice.new, exampleParams,
      Oscillator.isActive, float_Pi])).imp
    (fun _ h n hn => (h.2 n hn).2.2.1)

/-! ## Note-off (C7, C8) -/

/-- C7: `stopNote` with tail-off allowed is idempotent, and two calls leave
`tailOff` at `1` when it was `0` and at its former value otherwise. -/
theorem stopNote_tailOff_idempotent (v : Voice) (velocity velocity' : ℚ) :
    (v.stopNote velocity true).stopNote velocity' true = v.stopNote velocity true ∧
    ((v.stopNote velocity true).stopNote velocity' true).tailOff =
      (if v.tailOff = 0 then 1 else v.tailOff) ∧
    v.stopNote velocity true = (if v.tailOff = 0 then { v with tailOff := 1 } else v) := by
  by_cases h : v.tailOff = 0
  · simp [Voice.stopNote, h]
  · simp [Voice.stopNote, h]

/-- C8: a note-on followed at once by a note-off without tail-off leaves the
voice idle and both oscillators reset, hence inactive. -/
theorem startNote_stopNote_immediate (x : Externals) (v : Voice) (midiNoteNumber : Int)
    (velocity velocity' : ℚ) :
    ((v.startNote x midiNoteNumber velocity).stopNote velocity' false).isVoiceActive = false ∧
    ((v.startNote x midiNoteNumber velocity).stopNote velocity' false).osc1 =
      { phase := 0, phaseDelta := 0 } ∧
    ((v.startNote x midiNoteNumber velocity).stopNote velocity' false).lfo1 =
      { phase := 0, phaseDelta := 0 } ∧
    ((v.startNote x midiNoteNumber velocity).stopNote velocity' false).osc1.isActive = false ∧
    ((v.startNote x midiNoteNumber velocity).stopNote velocity' false).lfo1.isActive = false := by
  simp [Voice.stopNote, Voice.startNote, Voice.clearCurrentNote, Voice.isVoiceActive,
    Oscillator.reset, Oscillator.isActive]

/-! ## Delay line (C9, C10) -/

/-- C9: copying the block of ones a second time into the delay line of a
fresh voice leaves `2` in the slot of sample 0, not the block's sample `1`:
the write clears slot 0 of the delay buffer, not the target slot, so the
value is added to what the slot held. The slot, `2205`, lies inside the
delay buffer and is also the index modulo the capacity. -/
theorem copyRenderedBlockToDelayBuffer_accumulates :
    onceCopied.getDelayIndex (0 + 0 + onceCopied.delayOffsetInSamples) = 2205 ∧
    (0 + 0 + onceCopied.delayOffsetInSamples) % onceCopied.maxDelayLengthInSamples = 2205 ∧
    onceCopied.delayBuffer.holds 0 2205 ∧
    onesBuffer.getSample 0 (0 + 0) = 1 ∧
    onceCopied.delayBuffer.data 0 2205 = 1 ∧
    (onceCopied.copyRenderedBlockToDelayBuffer onesBuffer).delayBuffer.data 0 2205 = 2 := by
  simp [onceCopied, freshVoice, exampleParams, onesBuffer, Voice.new, forLoop, List.range,
    List.range.loop, Oscillator.new,
    Voice.copyRenderedBlockToDelayBuffer, AudioSampleBuffer.clear,
    AudioSampleBuffer.addSample, AudioSampleBuffer.getSample,
    AudioSampleBuffer.zeros, AudioSampleBuffer.holds,
    Voice.getDelayIndex, truncToInt]
  norm_num

/-- C10: on a fresh voice (capacity 88200) `getDelayIndex` returns the
capacity itself for the index equal to the capacity, and twice the capacity
for three times the capacity, where the index modulo the capacity is `0`. -/
theorem getDelayIndex_not_modulo :
    freshVoice.maxDelayLengthInSamples = 88200 ∧
    freshVoice.getDelayIndex 88200 = 88200 ∧ (88200 : Int) % 88200 = 0 ∧
    freshVoice.getDelayIndex 264600 = 176400 ∧ (264600 : Int) % 88200 = 0 := by
  simp [freshVoice, Voice.new, Voice.getDelayIndex, truncToInt]

/-! ## Oscillator (C11 to C14) -/

/-- A non-negative phase reduced by `fmod` lies below the modulus. -/
theorem fmod_lt {a m : ℚ} (ha : 0 ≤ a) (hm : 0 < m) : fmod a m < m := by
  unfold fmod
  rw [truncToInt_of_nonneg (div_nonneg ha hm.le)]
  have h := Int.lt_floor_add_one (a / m)
  have h2 : a / m * m < ((⌊a / m⌋ : ℚ) + 1) * m := mul_lt_mul_of_pos_right h hm
  rw [div_mul_cancel₀ a hm.ne'] at h2
  linarith

/-- C11: an oscillator whose phase starts in `[0, 2 * float_Pi)` and whose
`phaseDelta` is positive has its phase in `[0, 2 * float_Pi)` after any number
of `next()` calls, whatever the waveform. -/
theorem next_phase_in_range (waveform : ℚ → ℚ) (n : ℕ) (o : Oscillator)
    (h0 : 0 ≤ o.phase) (h1 : o.phase < float_Pi * 2) (hd : 0 < o.phaseDelta) :
    0 ≤ (o.nextSamples waveform n).2.phase ∧
    (o.nextSamples waveform n).2.phase < float_Pi * 2 := by
  have hm : (0 : ℚ) < float_Pi * 2 := by have := float_Pi_pos; linarith
  induction n generalizing o with
  | zero => exact ⟨h0, h1⟩
  | succ n ih =>
    simp only [Oscillator.nextSamples]
    exact ih (o.next waveform).2
      (fmod_nonneg (add_nonneg h0 hd.le) hm)
      (fmod_lt (add_nonneg h0 hd.le) hm) hd

/-- Witness: the carrier armed by note 69 on a fresh voice, after five
`next()` calls. -/
theorem next_phase_in_range_witness :
    0 ≤ ((freshVoice.startNote exampleExternals 69 1).osc1.nextSamples
      Waveforms.square 5).2.phase ∧
    ((freshVoice.startNote exampleExternals 69 1).osc1.nextSamples
      Waveforms.square 5).2.phase < float_Pi * 2 :=
  next_phase_in_range Waveforms.square 5 (freshVoice.startNote exampleExternals 69 1).osc1
    (by simp [Voice.startNote])
    (by norm_num [Voice.startNote, float_Pi])
    (by norm_num [Voice.startNote, freshVoice, Voice.new, exampleParams, exampleExternals,
      float_Pi])

/-- C12: from the same oscillator state, `n` successive `next(1.0)` calls
return the same samples and leave the same oscillator as `n` successive
`next()` calls, for every waveform. -/
theorem nextPitchMod_one_eq_next (waveform : ℚ → ℚ) (n : ℕ) (o : Oscillator) :
    o.nextPitchModSamples waveform 1 n = o.nextSamples waveform n := by
  induction n generalizing o with
  | zero => rfl
  | succ n ih =>
    have h : o.nextPitchMod waveform 1 = o.next waveform := by
      simp [Oscillator.nextPitchMod, Oscillator.next]
    simp only [Oscillator.nextPitchModSamples, Oscillator.nextSamples, h, ih]

/-- C13: after `reset()` the oscillator is inactive and the next `next()`
call returns the waveform's value at phase 0, which is `+1` for the square,
`-0.5` for the sawtooth, and `0` for the sine given `sin 0 = 0`. -/
theorem next_after_reset (stdSin : ℚ → ℚ) (hsin : stdSin 0 = 0) (waveform : ℚ → ℚ)
    (o : Oscillator) :
    o.reset.isActive = false ∧
    (o.reset.next waveform).1 = waveform 0 ∧
    (o.reset.next (Waveforms.sinus stdSin)).1 = 0 ∧
    (o.reset.next Waveforms.square).1 = 1 ∧
    (o.reset.next Waveforms.saw).1 = -0.5 := by
  refine ⟨?_, rfl, ?_, ?_, ?_⟩
  · simp [Oscillator.reset, Oscillator.isActive]
  · simpa [Oscillator.reset, Oscillator.next, Waveforms.sinus] using hsin
  · have := float_Pi_pos
    simp [Oscillator.reset, Oscillator.next, Waveforms.square, this.le]
  · simp [Oscillator.reset, Oscillator.next, Waveforms.saw]

/-- Witness: the carrier armed by note 69 on a fresh voice, reset. -/
theorem next_after_reset_witness :
    (freshVoice.startNote exampleExternals 69 1).osc1.reset.isActive = false ∧
    ((freshVoice.startNote exampleExternals 69 1).osc1.reset.next Waveforms.saw).1
      = Waveforms.saw 0 ∧
    ((freshVoice.startNote exampleExternals 69 1).osc1.reset.next
      (Waveforms.sinus exampleExternals.stdSin)).1 = 0 ∧
    ((freshVoice.startNote exampleExternals 69 1).osc1.reset.next Waveforms.square).1 = 1 ∧
    ((freshVoice.startNote exampleExternals 69 1).osc1.reset.next Waveforms.saw).1 = -0.5 :=
  next_after_reset exampleExternals.stdSin rfl Waveforms.saw
    (freshVoice.startNote exampleExternals 69 1).osc1

/-- C14: for a phase in `[0, 2 * float_Pi)` each of the three waveform
functions returns a value in `[-1, 1]`; for the sine this is the range of the
library function `std::sin`. -/
theorem waveforms_in_range (stdSin : ℚ → ℚ) (hsin : ∀ p, -1 ≤ stdSin p ∧ stdSin p ≤ 1)
    (phase : ℚ) (h0 : 0 ≤ phase) (h1 : phase < float_Pi * 2) :
    (-1 ≤ Waveforms.sinus stdSin phase ∧ Waveforms.sinus stdSin phase ≤ 1) ∧
    (-1 ≤ Waveforms.square phase ∧ Waveforms.square phase ≤ 1) ∧
    (-1 ≤ Waveforms.saw phase ∧ Waveforms.saw phase ≤ 1) := by
  have hm : (0 : ℚ) < float_Pi * 2 := by have := float_Pi_pos; linarith
  refine ⟨hsin phase, ?_, ?_⟩
  · unfold Waveforms.square
    split <;> norm_num
  · unfold Waveforms.saw
    have e0 : 0 ≤ phase / (float_Pi * 2) := div_nonneg h0 hm.le
    have e1 : phase / (float_Pi * 2) < 1 := (div_lt_one hm).mpr h1
    constructor <;> norm_num <;> linarith

/-- Witness: the three waveforms at phase 1. -/
theorem waveforms_in_range_witness :
    (-1 ≤ Waveforms.sinus exampleExternals.stdSin 1 ∧
      Waveforms.sinus exampleExternals.stdSin 1 ≤ 1) ∧
    (-1 ≤ Waveforms.square 1 ∧ Waveforms.square 1 ≤ 1) ∧
    (-1 ≤ Waveforms.saw 1 ∧ Waveforms.saw 1 ≤ 1) :=
  waveforms_in_range exampleExternals.stdSin
    (fun _ => by norm_num [exampleExternals]) 1 (by norm_num) (by norm_num [float_Pi])

namespace Voice

/-- The release loop never changes the phase increment of the carrier. -/
theorem releaseLoop_osc1_phaseDelta (start : Int) (amp : ℚ) (pm : Int → ℚ) (remaining : ℕ) :
    ∀ (s : Int) (v : Voice) (out : AudioSampleBuffer),
    (releaseLoop start amp pm remaining s v out).1.osc1.phaseDelta = v.osc1.phaseDelta := by
  induction remaining with
  | zero => intro s v out; rfl
  | succ m ih =>
    intro s v out
    rw [releaseLoop_succ]
    split
    · rfl
    · rw [ih]
      rfl

/-- A block rendered while releasing leaves the phase increment of the
carrier as it was, whether or not the release completes in it. -/
theorem renderNextBlock_release_osc1_phaseDelta (x : Externals) (v : Voice)
    (out : AudioSampleBuffer) (start n : Int) (ht : 0 < v.tailOff)
    (hl : v.lfo1.isActive = true) :
    (v.renderNextBlock x out start n).1.osc1.phaseDelta = v.osc1.phaseDelta := by
  obtain ⟨ph, pm, e⟩ := renderModulation_eq x v n
  obtain ⟨dl, hdl⟩ := copyRenderedBlockToDelayBuffer_eq (v.renderCarrier x out start n).1
    (v.renderCarrier x out start n).2
  simp only [renderNextBlock]
  rw [hdl, renderCarrier_releasing x v out start n ht hl]
  simp only []
  rw [releaseLoop_osc1_phaseDelta, e]

/-- Every index below twice the capacity other than the capacity itself is
wrapped into the delay buffer. -/
theorem getDelayIndex_in_range_of_ne (v : Voice) (i : Int) (h0 : 0 ≤ i)
    (h1 : i < 2 * v.maxDelayLengthInSamples) (hne : i ≠ v.maxDelayLengthInSamples) :
    0 ≤ v.getDelayIndex i ∧ v.getDelayIndex i < v.maxDelayLengthInSamples := by
  unfold getDelayIndex
  split <;> constructor <;> omega

end Voice

/-! ## Release completion and the delay index (C15, C16) -/

/-- C15: the released voice (`tailOff = 1`, decay factor 0.5) completes its
release inside a block of 8 samples: `tailOff` is at most `0.005`, the voice
is idle and the LFO is reset, but the carrier keeps the positive phase
increment set by the note-on and still reports active. -/
theorem release_leaves_carrier_armed :
    (releasedVoice.renderNextBlock exampleExternals (AudioSampleBuffer.zeros 1 8) 0 8).1.tailOff
      ≤ 0.005 ∧
    (releasedVoice.renderNextBlock exampleExternals
      (AudioSampleBuffer.zeros 1 8) 0 8).1.isVoiceActive = false ∧
    (releasedVoice.renderNextBlock exampleExternals (AudioSampleBuffer.zeros 1 8) 0 8).1.lfo1
      = { phase := 0, phaseDelta := 0 } ∧
    (releasedVoice.renderNextBlock exampleExternals
      (AudioSampleBuffer.zeros 1 8) 0 8).1.osc1.phaseDelta = 440 / 44100 * 2 * float_Pi ∧
    (releasedVoice.renderNextBlock exampleExternals
      (AudioSampleBuffer.zeros 1 8) 0 8).1.osc1.isActive = true := by
  have ht : releasedVoice.tailOff = 1 := by
    simp [releasedVoice, Voice.stopNote, Voice.startNote]
  have hd : releasedVoice.params.decayFac = 0.5 := by
    simp [releasedVoice, Voice.stopNote, Voice.startNote, freshVoice, Voice.new, exampleParams]
  have hl : releasedVoice.lfo1.isActive = true := by
    norm_num [releasedVoice, Voice.stopNote, Voice.startNote, freshVoice, Voice.new,
      exampleParams, Oscillator.isActive, float_Pi]
  have hp : releasedVoice.osc1.phaseDelta = 440 / 44100 * 2 * float_Pi := by
    norm_num [releasedVoice, Voice.stopNote, Voice.startNote, freshVoice, Voice.new,
      exampleParams, exampleExternals]
  have ht0 : 0 < releasedVoice.tailOff := by rw [ht]; norm_num
  have hK : ∀ j : ℕ, 1 ≤ j → j ≤ 7 →
      0.005 < releasedVoice.tailOff * releasedVoice.params.decayFac ^ j := by
    intro j h1 h2
    rw [ht, hd]
    interval_cases j <;> norm_num
  have hfloor : releasedVoice.tailOff * releasedVoice.params.decayFac ^ (7 + 1) ≤ 0.005 := by
    rw [ht, hd]; norm_num
  obtain ⟨⟨o, pmb, dl, e⟩, _⟩ := Voice.renderNextBlock_release_floor exampleExternals
    releasedVoice (AudioSampleBuffer.zeros 1 8) 0 8 7 ht0 hl hK hfloor (by norm_num)
  have hpd := Voice.renderNextBlock_release_osc1_phaseDelta exampleExternals releasedVoice
    (AudioSampleBuffer.zeros 1 8) 0 8 ht0 hl
  refine ⟨?_, ?_, ?_, ?_, ?_⟩
  · rw [e]; exact hfloor
  · rw [e]; simp [Voice.isVoiceActive]
  · rw [e]
  · rw [hpd, hp]
  · simp only [Oscillator.isActive, decide_eq_true_eq, gt_iff_lt]
    rw [hpd, hp]
    norm_num [float_Pi]

/-- C16: on a fresh voice (capacity 88200) the index 88200, which the delay
write forms for sample 85995 of a block and which lies below twice the
capacity, is returned unchanged by `getDelayIndex`: the result is not below
the capacity and is not a sample of the delay buffer. -/
theorem getDelayIndex_capacity_out_of_range :
    0 < freshVoice.maxDelayLengthInSamples ∧
    0 + 85995 + freshVoice.delayOffsetInSamples = 88200 ∧
    (0 : Int) ≤ 88200 ∧ (88200 : Int) < 2 * freshVoice.maxDelayLengthInSamples ∧
    freshVoice.getDelayIndex 88200 = 88200 ∧
    ¬ freshVoice.getDelayIndex 88200 < freshVoice.maxDelayLengthInSamples ∧
    ¬ freshVoice.delayBuffer.holds 0 (freshVoice.getDelayIndex 88200) := by
  simp [freshVoice, Voice.new, Voice.getDelayIndex, truncToInt, AudioSampleBuffer.holds,
    AudioSampleBuffer.clear, AudioSampleBuffer.zeros]

end TheSource
